import Mathlib

set_option autoImplicit false

/-!
Verification of the English Buddy analysis pipeline.

The development shallowly embeds the repository's Python modules:
`lib/language_detect.py`, `lib/db.py`, `lib/obsidian.py`, the parsing
fallback in `lib/claude_api.py`, and the orchestration in
`scripts/check_grammar.py` and `scripts/recall.py`.
-/

namespace EnglishBuddy

/-! ## Character model

The language-detection code distinguishes characters only through the
following classes: whitespace (regex `\s`), decimal digits (`\d`),
non-word characters (`\W`, i.e. punctuation and symbols; the character
`/` is singled out because of the slash-command check), CJK Unified
Ideographs (`一`–`鿿`), ASCII Latin letters (matched by
`[a-zA-Z]` and by the comparison `'a' <= c.lower() <= 'z'`), and any
remaining word characters (e.g. Cyrillic letters or the underscore,
which are word characters but neither CJK nor Latin). We embed text as
a list of these classes. The embedding identifies Python's predicate
`'a' <= c.lower() <= 'z'` with membership in `[a-zA-Z]`; the two agree
on every character outside a handful of exotic codepoints. -/
inductive PChar where
  | space
  | digit
  | slash
  | punct
  | latin
  | cjk
  | other
deriving DecidableEq, Repr

abbrev Text := List PChar

/-- Characters kept by `re.sub(r'[\s\d\W]+', '', text)`: word characters
that are not digits, i.e. Latin letters, CJK ideographs and other word
characters. -/
def keepClean (c : PChar) : Bool :=
  match c with
  | .latin => true
  | .cjk => true
  | .other => true
  | _ => false

def isSpace (c : PChar) : Bool := c = PChar.space

def isLatin (c : PChar) : Bool := c = PChar.latin

def isCJK (c : PChar) : Bool := c = PChar.cjk

/-- `contains_english` from `lib/language_detect.py`: the regex
`[a-zA-Z]{2,}` finds a match iff the text has two consecutive Latin
letters. -/
def contains_english : Text → Bool
  | c1 :: c2 :: rest => (isLatin c1 && isLatin c2) || contains_english (c2 :: rest)
  | _ => false

/-- The character loop of `is_pure_chinese`: CJK characters continue,
a Latin letter returns `False`, any other remaining character falls
through both branches and also continues. -/
def pureLoop : Text → Bool
  | [] => true
  | c :: rest =>
    if isCJK c then pureLoop rest
    else if isLatin c then false
    else pureLoop rest

/-- `is_pure_chinese` from `lib/language_detect.py`. -/
def is_pure_chinese (text : Text) : Bool :=
  let cleaned := text.filter keepClean
  if cleaned.isEmpty then true
  else pureLoop cleaned

def chineseCount (text : Text) : Nat := text.countP isCJK

def englishCount (text : Text) : Nat := text.countP isLatin

/-- `is_primarily_chinese` from `lib/language_detect.py`. The source
compares `chinese_count > (chinese_count + english_count) * 0.3` in
IEEE double precision; because the rounding error of the float literal
`0.3` is below half an ulp of every product `n * 0.3`, that comparison
coincides with the exact rational comparison `10 * c > 3 * (c + e)`
for all realistic counts, which is the form used here. -/
def is_primarily_chinese (text : Text) : Bool :=
  let c := chineseCount text
  let e := englishCount text
  if c + e = 0 then true
  else decide (10 * c > 3 * (c + e))

/-- Python `str.strip()`: drop whitespace from both ends. -/
def stripText (t : Text) : Text :=
  ((t.dropWhile isSpace).reverse.dropWhile isSpace).reverse

/-- `text.strip().startswith('/')`. -/
def startsWithSlash (t : Text) : Bool :=
  match stripText t with
  | .slash :: _ => true
  | _ => false

/-- Python `str.split()` with no separator: split on whitespace runs,
dropping empty tokens. Accumulator-based embedding. -/
def pyWordsGo : Text → Text → List Text
  | [], acc => if acc.isEmpty then [] else [acc.reverse]
  | c :: rest, acc =>
    if isSpace c then
      if acc.isEmpty then pyWordsGo rest []
      else acc.reverse :: pyWordsGo rest []
    else pyWordsGo rest (c :: acc)

def pyWords (t : Text) : List Text := pyWordsGo t []

/-- `should_check_grammar` from `lib/language_detect.py`, mirroring the
source's sequence of early-return checks.  `not text or not
text.strip()` is equivalent to the stripped text being empty. -/
def should_check_grammar (text : Text) : Bool :=
  if (stripText text).isEmpty then false
  else if startsWithSlash text then false
  else if is_pure_chinese text then false
  else if is_primarily_chinese text then false
  else if !contains_english text then false
  else if (pyWords text).length < 3 then false
  else true

/-! ## The admission conditions as the specification words them -/

/-- Spec condition: the text is empty or whitespace-only. -/
def condEmptyText (t : Text) : Prop := t.all isSpace = true

/-- Spec condition: the stripped form begins with `/`. -/
def condSlashCommand (t : Text) : Prop := startsWithSlash t = true

/-- Spec condition: after stripping whitespace, digits and punctuation,
every remaining character is a CJK ideograph (or nothing remains). -/
def condPureCJK (t : Text) : Prop := (t.filter keepClean).all isCJK = true

/-- Spec condition: counting CJK ideographs and Latin letters only, the
CJK count exceeds 30% of their sum, or both counts are zero. -/
def condPrimarilyCJK (t : Text) : Prop :=
  10 * chineseCount t > 3 * (chineseCount t + englishCount t) ∨
    chineseCount t + englishCount t = 0

/-- Spec condition: no run of at least two consecutive Latin letters. -/
def condNoEnglishRun (t : Text) : Prop := contains_english t = false

/-- Spec condition: fewer than 3 whitespace-separated tokens. -/
def condTooFewTokens (t : Text) : Prop := (pyWords t).length < 3

/-! ## Concrete example texts from the specification -/

/-- "你好世界" -/
def exNihao : Text := [.cjk, .cjk, .cjk, .cjk]

/-- "/commit" -/
def exCommit : Text := .slash :: List.replicate 6 .latin

/-- "Hi" -/
def exHi : Text := [.latin, .latin]

/-- "I want to improve my English" -/
def exImprove : Text :=
  List.replicate 1 PChar.latin ++ [PChar.space] ++
  List.replicate 4 PChar.latin ++ [PChar.space] ++
  List.replicate 2 PChar.latin ++ [PChar.space] ++
  List.replicate 7 PChar.latin ++ [PChar.space] ++
  List.replicate 2 PChar.latin ++ [PChar.space] ++
  List.replicate 7 PChar.latin

/-- "npm install package" -/
def exNpm : Text :=
  List.replicate 3 PChar.latin ++ [PChar.space] ++
  List.replicate 7 PChar.latin ++ [PChar.space] ++
  List.replicate 7 PChar.latin

/-! ## Lemmas about the admission filter -/

lemma pureLoop_eq_true_iff (l : Text) :
    pureLoop l = true ↔ PChar.latin ∉ l := by
  induction l with
  | nil => simp [pureLoop]
  | cons c rest ih =>
    cases c <;> simp [pureLoop, isCJK, isLatin, ih]

lemma latin_mem_filter_keepClean (t : Text) :
    PChar.latin ∈ t.filter keepClean ↔ PChar.latin ∈ t := by
  simp [List.mem_filter, keepClean]

lemma englishCount_eq_zero_iff (t : Text) :
    englishCount t = 0 ↔ PChar.latin ∉ t := by
  unfold englishCount
  rw [List.countP_eq_zero]
  constructor
  · intro h hmem
    have := h _ hmem
    simp [isLatin] at this
  · intro h c hc hl
    have : c = PChar.latin := by simpa [isLatin] using hl
    exact h (this ▸ hc)

/-- If `is_pure_chinese` holds then the text has no Latin letter, hence
`is_primarily_chinese` also holds: the pure-Chinese check is subsumed
by the primarily-Chinese check. -/
lemma pure_imp_primarily (t : Text) :
    is_pure_chinese t = true → is_primarily_chinese t = true := by
  intro h
  have hnolatin : PChar.latin ∉ t := by
    unfold is_pure_chinese at h
    by_cases hemp : (t.filter keepClean).isEmpty
    · intro hmem
      have : PChar.latin ∈ t.filter keepClean :=
        (latin_mem_filter_keepClean t).2 hmem
      rw [List.isEmpty_iff] at hemp
      simp [hemp] at this
    · simp only [hemp, if_neg, Bool.if_false_left] at h
      have hp : pureLoop (t.filter keepClean) = true := by
        simpa [hemp] using h
      have := (pureLoop_eq_true_iff _).1 hp
      intro hmem
      exact this ((latin_mem_filter_keepClean t).2 hmem)
  have he : englishCount t = 0 := (englishCount_eq_zero_iff t).2 hnolatin
  unfold is_primarily_chinese
  by_cases hc : chineseCount t + englishCount t = 0
  · simp [hc]
  · have hcpos : 0 < chineseCount t := by
      rw [he] at hc
      omega
    have : 10 * chineseCount t > 3 * (chineseCount t + englishCount t) := by
      rw [he]
      omega
    simp [hc, this]

/-- If every remaining character after the claim's stripping is CJK,
the text has no Latin letter, so the primarily-Chinese condition holds:
the pure-CJK condition is subsumed by the primarily-CJK condition. -/
lemma condPureCJK_imp_condPrimarilyCJK (t : Text) :
    condPureCJK t → condPrimarilyCJK t := by
  intro h
  have hnolatin : PChar.latin ∉ t := by
    intro hmem
    have hm : PChar.latin ∈ t.filter keepClean :=
      (latin_mem_filter_keepClean t).2 hmem
    unfold condPureCJK at h
    rw [List.all_eq_true] at h
    have := h _ hm
    simp [isCJK] at this
  have he : englishCount t = 0 := (englishCount_eq_zero_iff t).2 hnolatin
  unfold condPrimarilyCJK
  by_cases hc : chineseCount t + englishCount t = 0
  · exact Or.inr hc
  · left
    rw [he] at hc ⊢
    omega

lemma primarily_eq_condPrimarilyCJK (t : Text) :
    is_primarily_chinese t = true ↔ condPrimarilyCJK t := by
  unfold is_primarily_chinese condPrimarilyCJK
  by_cases hc : chineseCount t + englishCount t = 0
  · simp [hc]
  · simp [hc]

lemma stripText_isEmpty_iff (t : Text) :
    (stripText t).isEmpty = true ↔ t.all isSpace = true := by
  unfold stripText
  rw [List.isEmpty_iff, List.reverse_eq_nil_iff, List.dropWhile_eq_nil_iff,
    List.all_eq_true]
  constructor
  · intro h
    by_cases hdrop : (t.dropWhile isSpace) = []
    · intro c hc
      exact (List.dropWhile_eq_nil_iff.1 hdrop) _ hc
    · exfalso
      have hlen : 0 < (t.dropWhile isSpace).length :=
        List.length_pos.2 hdrop
      have hnot := List.dropWhile_get_zero_not isSpace t hlen
      apply hnot
      apply h
      rw [List.mem_reverse]
      exact List.get_mem _ 0 hlen
  · intro h c hc
    have hdrop : t.dropWhile isSpace = [] :=
      List.dropWhile_eq_nil_iff.2 fun x hx => h x hx
    rw [hdrop] at hc
    simp at hc

/-- The admission filter admits a text iff none of the six spec
conditions holds. -/
theorem should_check_grammar_iff (t : Text) :
    should_check_grammar t = true ↔
      ¬ condEmptyText t ∧ ¬ condSlashCommand t ∧ ¬ condPureCJK t ∧
      ¬ condPrimarilyCJK t ∧ ¬ condNoEnglishRun t ∧ ¬ condTooFewTokens t := by
  constructor
  · intro h
    unfold should_check_grammar at h
    split_ifs at h with h1 h2 h3 h4 h5 h6
    refine ⟨?_, ?_, ?_, ?_, ?_, ?_⟩
    · intro hA
      exact h1 ((stripText_isEmpty_iff t).2 hA)
    · exact h2
    · intro hC
      exact h4 ((primarily_eq_condPrimarilyCJK t).2
        (condPureCJK_imp_condPrimarilyCJK t hC))
    · intro hD
      exact h4 ((primarily_eq_condPrimarilyCJK t).2 hD)
    · intro hE
      rw [Bool.not_eq_true] at h5
      unfold condNoEnglishRun at hE
      simp [hE] at h5
    · exact h6
  · rintro ⟨hA, hB, hC, hD, hE, hF⟩
    have h1 : ¬ (stripText t).isEmpty = true := fun h =>
      hA ((stripText_isEmpty_iff t).1 h)
    have h4 : ¬ is_primarily_chinese t = true := fun h =>
      hD ((primarily_eq_condPrimarilyCJK t).1 h)
    have h3 : ¬ is_pure_chinese t = true := fun h =>
      h4 (pure_imp_primarily t h)
    have h5 : contains_english t = true := by
      unfold condNoEnglishRun at hE
      exact Bool.of_not_eq_false hE
    unfold should_check_grammar
    simp [h1, hB, h3, h4, h5, hF]
    constructor
    · unfold condSlashCommand at hB
      exact Bool.of_not_eq_true hB
    · unfold condTooFewTokens at hF
      omega

/-- C7: `should_check_grammar` admits a text if and only if none of the
six rejection conditions holds (empty/whitespace-only; stripped form
begins with `/`; everything left after stripping whitespace, digits and
punctuation is CJK; CJK count exceeds 30% of CJK+Latin or both are
zero; no run of two consecutive Latin letters; fewer than 3
whitespace-separated tokens); in particular "你好世界", "/commit" and
"Hi" are rejected while "I want to improve my English" and
"npm install package" are admitted. -/
theorem claim_C7_admission_filter :
    (∀ t : Text, should_check_grammar t = true ↔
      ¬ condEmptyText t ∧ ¬ condSlashCommand t ∧ ¬ condPureCJK t ∧
      ¬ condPrimarilyCJK t ∧ ¬ condNoEnglishRun t ∧ ¬ condTooFewTokens t) ∧
    should_check_grammar exNihao = false ∧
    should_check_grammar exCommit = false ∧
    should_check_grammar exHi = false ∧
    should_check_grammar exImprove = true ∧
    should_check_grammar exNpm = true :=
  ⟨should_check_grammar_iff, by decide, by decide, by decide, by decide,
    by decide⟩

/-! ## Structured store (`lib/db.py`)

Dates are embedded as integer day numbers with day 0 a Monday; the
source stores ISO-8601 date strings, whose lexicographic order (used
by SQL `BETWEEN`) coincides with chronological order, and computes
`today.weekday()` with Monday = 0, which is `today % 7` here.  The
`timestamp` column of a correction is represented by its date
component, the only part any claim depends on. -/

/-- One element of the `errors` list handed to `save_correction`: a
dict with keys `original`, `correction`, `explanation` and an optional
`category` (absent key modelled as `none`). -/
structure ErrRec where
  original : String
  correction : String
  explanation : String
  category : Option String
deriving DecidableEq, Repr

/-- One row of the `daily_stats` table (without its `date` key). -/
structure Counts where
  total_corrections : Nat
  spelling_count : Nat
  grammar_count : Nat
  style_count : Nat
  vocabulary_count : Nat
deriving DecidableEq, Repr

def zeroCounts : Counts := ⟨0, 0, 0, 0, 0⟩

/-- One row of the `corrections` table. -/
structure CorrectionRow where
  id : Nat
  day : Int
  original_text : Text
  user_text : Text
  better_expression : Option Text
  summary : Option String
deriving DecidableEq, Repr

/-- One row of the `errors` table. -/
structure ErrorRow where
  id : Nat
  correction_id : Nat
  original : String
  correction : String
  explanation : String
  category : String
deriving DecidableEq, Repr

/-- The SQLite database: three tables plus the autoincrement state. -/
structure DB where
  corrections : List CorrectionRow
  errors : List ErrorRow
  daily : List (Int × Counts)
  nextCorrId : Nat
  nextErrId : Nat
deriving DecidableEq, Repr

def emptyDB : DB := ⟨[], [], [], 1, 1⟩

def validCategories : List String := ["spelling", "grammar", "style", "vocabulary"]

/-- ASCII lower-casing of one character, as Python `str.lower()` acts
on the ASCII range (category strings are ASCII). -/
def lowerChar (c : Char) : Char :=
  if 65 ≤ c.toNat ∧ c.toNat ≤ 90 then Char.ofNat (c.toNat + 32) else c

def lowerAscii (s : String) : String := ⟨s.data.map lowerChar⟩

/-- `error.get("category", "grammar").lower()` followed by the
fallback to `"grammar"` for unrecognized values. -/
def normalizeCategory (c : Option String) : String :=
  let cat := lowerAscii (c.getD "grammar")
  if cat ∈ validCategories then cat else "grammar"

/-- The per-category totals accumulated by the loop in
`save_correction`. -/
structure CatCounts where
  spelling : Nat
  grammar : Nat
  style : Nat
  vocabulary : Nat
deriving DecidableEq, Repr

def bumpCat (acc : CatCounts) (cat : String) : CatCounts :=
  if cat = "spelling" then { acc with spelling := acc.spelling + 1 }
  else if cat = "grammar" then { acc with grammar := acc.grammar + 1 }
  else if cat = "style" then { acc with style := acc.style + 1 }
  else { acc with vocabulary := acc.vocabulary + 1 }

def categoryCounts (errors : List ErrRec) : CatCounts :=
  errors.foldl (fun acc e => bumpCat acc (normalizeCategory e.category)) ⟨0, 0, 0, 0⟩

/-- The arguments of `save_correction`. -/
structure SaveArgs where
  original_text : Text
  user_text : Text
  errors : List ErrRec
  better_expression : Option Text
  summary : Option String
deriving DecidableEq, Repr

/-- The SQL statements `save_correction` executes on its cursor. -/
inductive Stmt where
  | insertCorrection (day : Int) (original_text user_text : Text)
      (better_expression : Option Text) (summary : Option String)
  | insertError (correction_id : Nat)
      (original correction explanation category : String)
  | upsertDaily (day : Int) (cc : CatCounts)
deriving DecidableEq, Repr

/-- `INSERT ... ON CONFLICT(date) DO UPDATE` on `daily_stats`: update
the row with the matching date in place, else append a fresh row with
`total_corrections = 1`. -/
def upsertRow (daily : List (Int × Counts)) (d : Int) (cc : CatCounts) :
    List (Int × Counts) :=
  match daily with
  | [] => [(d, ⟨1, cc.spelling, cc.grammar, cc.style, cc.vocabulary⟩)]
  | (d0, c0) :: rest =>
    if d0 = d then
      (d0, ⟨c0.total_corrections + 1, c0.spelling_count + cc.spelling,
        c0.grammar_count + cc.grammar, c0.style_count + cc.style,
        c0.vocabulary_count + cc.vocabulary⟩) :: rest
    else (d0, c0) :: upsertRow rest d cc

def applyStmt (db : DB) : Stmt → DB
  | .insertCorrection day ot ut be su =>
    { db with
        corrections := db.corrections ++ [⟨db.nextCorrId, day, ot, ut, be, su⟩],
        nextCorrId := db.nextCorrId + 1 }
  | .insertError cid o c ex cat =>
    { db with
        errors := db.errors ++ [⟨db.nextErrId, cid, o, c, ex, cat⟩],
        nextErrId := db.nextErrId + 1 }
  | .upsertDaily d cc => { db with daily := upsertRow db.daily d cc }

/-- The statement sequence of `save_correction`: the correction insert
(whose `lastrowid` is `cid`), one error insert per finding with the
normalized category, and the daily-stats upsert for today. -/
def save_correction_stmts (cid : Nat) (today : Int) (a : SaveArgs) : List Stmt :=
  Stmt.insertCorrection today a.original_text a.user_text a.better_expression
      a.summary ::
    a.errors.map (fun e => Stmt.insertError cid e.original e.correction
      e.explanation (normalizeCategory e.category)) ++
    [Stmt.upsertDaily today (categoryCounts a.errors)]

/-- A SQLite connection: the durable database plus the uncommitted
view of the open transaction. Statements act on the pending view;
`commit` publishes it. Closing without committing rolls back. -/
structure Conn where
  committed : DB
  pending : DB

def execStmt (c : Conn) (s : Stmt) : Conn :=
  { c with pending := applyStmt c.pending s }

def commitConn (c : Conn) : Conn :=
  { c with committed := c.pending }

/-- `save_correction` run with an injected failure point: `none` runs
every statement and then `conn.commit()`; `some k` means the run dies
after the first `k` statements, before the final commit, so the
connection is closed without committing. -/
def save_correction_run (db : DB) (today : Int) (a : SaveArgs)
    (failAt : Option Nat) : DB :=
  let stmts := save_correction_stmts db.nextCorrId today a
  match failAt with
  | none => (commitConn (stmts.foldl execStmt ⟨db, db⟩)).committed
  | some k => ((stmts.take k).foldl execStmt ⟨db, db⟩).committed

/-- `save_correction` from `lib/db.py` (the completed, committed run). -/
def save_correction (db : DB) (today : Int) (a : SaveArgs) : DB :=
  save_correction_run db today a none

/-- Daily-stats lookup as `get_daily_stats` performs it: the row for
the date, or all-zero counts when absent. -/
def lookupD (l : List (Int × Counts)) (d : Int) : Counts :=
  match l.find? (fun r => r.1 = d) with
  | some r => r.2
  | none => zeroCounts

def lookupDaily (db : DB) (d : Int) : Counts := lookupD db.daily d

/-- Number of corrections recorded on a date. -/
def corrCountOn (db : DB) (d : Int) : Nat :=
  (db.corrections.filter (fun c => c.day = d)).length

/-- The DailyCounter invariant: every date's counter total equals the
number of corrections persisted for that date. -/
def Consistent (db : DB) : Prop :=
  ∀ d : Int, (lookupDaily db d).total_corrections = corrCountOn db d

/-- Result row of `get_weekly_stats`. -/
structure WeeklyStats where
  week_start : Int
  week_end : Int
  total_corrections : Nat
  spelling_count : Nat
  grammar_count : Nat
  style_count : Nat
  vocabulary_count : Nat
deriving DecidableEq, Repr

/-- The `daily_stats` rows with `date BETWEEN start AND end`. -/
def weekRows (db : DB) (lo hi : Int) : List (Int × Counts) :=
  db.daily.filter (fun r => decide (lo ≤ r.1) && decide (r.1 ≤ hi))

/-- `get_weekly_stats` from `lib/db.py`: the window starts at
`today - (today.weekday() + 7 * weeks_back)` days and spans 7 days;
the SELECT computes `COUNT(*)` under the label `total_corrections` and
`SUM` of each category column, with NULL sums (empty window) read back
as 0. -/
def get_weekly_stats (db : DB) (today : Int) (weeks_back : Int) : WeeklyStats :=
  let start_of_week := today - (today % 7 + 7 * weeks_back)
  let end_of_week := start_of_week + 6
  let rows := weekRows db start_of_week end_of_week
  { week_start := start_of_week
    week_end := end_of_week
    total_corrections := rows.length
    spelling_count := (rows.map (fun r => r.2.spelling_count)).sum
    grammar_count := (rows.map (fun r => r.2.grammar_count)).sum
    style_count := (rows.map (fun r => r.2.style_count)).sum
    vocabulary_count := (rows.map (fun r => r.2.vocabulary_count)).sum }

/-! ## Lemmas about `save_correction` -/

lemma foldl_execStmt_committed (l : List Stmt) (c : Conn) :
    (l.foldl execStmt c).committed = c.committed := by
  induction l generalizing c with
  | nil => rfl
  | cons s rest ih => simpa [List.foldl_cons, execStmt] using ih _

lemma foldl_execStmt_pending (l : List Stmt) (c : Conn) :
    (l.foldl execStmt c).pending = l.foldl applyStmt c.pending := by
  induction l generalizing c with
  | nil => rfl
  | cons s rest ih => simp [List.foldl_cons, execStmt, ih]

/-- An aborted run commits nothing: the database is unchanged. -/
lemma save_correction_run_abort (db : DB) (today : Int) (a : SaveArgs) (k : Nat) :
    save_correction_run db today a (some k) = db := by
  unfold save_correction_run
  simp [foldl_execStmt_committed]

lemma save_correction_eq_applyAll (db : DB) (today : Int) (a : SaveArgs) :
    save_correction db today a =
      (save_correction_stmts db.nextCorrId today a).foldl applyStmt db := by
  unfold save_correction save_correction_run commitConn
  simp [foldl_execStmt_pending]

/-- The `errors`-table rows produced for a list of findings, starting
at autoincrement id `eid` with parent `cid`. -/
def errRowsFrom (eid cid : Nat) : List ErrRec → List ErrorRow
  | [] => []
  | e :: rest =>
    ⟨eid, cid, e.original, e.correction, e.explanation,
      normalizeCategory e.category⟩ :: errRowsFrom (eid + 1) cid rest

lemma foldl_errInserts (cid : Nat) (l : List ErrRec) (db : DB) :
    (l.map (fun e => Stmt.insertError cid e.original e.correction e.explanation
        (normalizeCategory e.category))).foldl applyStmt db =
      { db with
          errors := db.errors ++ errRowsFrom db.nextErrId cid l,
          nextErrId := db.nextErrId + l.length } := by
  induction l generalizing db with
  | nil => simp [errRowsFrom]
  | cons e rest ih =>
    simp only [List.map_cons, List.foldl_cons, applyStmt, ih, errRowsFrom,
      List.length_cons]
    congr 1
    · simp
    · omega

/-- Closed form of the committed `save_correction`. -/
lemma save_correction_eq (db : DB) (today : Int) (a : SaveArgs) :
    save_correction db today a =
      { corrections := db.corrections ++
          [⟨db.nextCorrId, today, a.original_text, a.user_text,
            a.better_expression, a.summary⟩],
        errors := db.errors ++ errRowsFrom db.nextErrId db.nextCorrId a.errors,
        daily := upsertRow db.daily today (categoryCounts a.errors),
        nextCorrId := db.nextCorrId + 1,
        nextErrId := db.nextErrId + a.errors.length } := by
  rw [save_correction_eq_applyAll]
  unfold save_correction_stmts
  simp only [List.foldl_append, List.foldl_cons, List.foldl_nil]
  simp only [applyStmt]
  rw [foldl_errInserts]

lemma lookupD_cons_self (d : Int) (c : Counts) (l : List (Int × Counts)) :
    lookupD ((d, c) :: l) d = c := by
  simp [lookupD, List.find?]

lemma lookupD_cons_ne (d0 : Int) (c0 : Counts) (l : List (Int × Counts))
    (d : Int) (h : d0 ≠ d) :
    lookupD ((d0, c0) :: l) d = lookupD l d := by
  simp [lookupD, List.find?, h]

lemma lookupD_upsert_self (l : List (Int × Counts)) (d : Int) (cc : CatCounts) :
    lookupD (upsertRow l d cc) d =
      ⟨(lookupD l d).total_corrections + 1,
        (lookupD l d).spelling_count + cc.spelling,
        (lookupD l d).grammar_count + cc.grammar,
        (lookupD l d).style_count + cc.style,
        (lookupD l d).vocabulary_count + cc.vocabulary⟩ := by
  induction l with
  | nil =>
    simp [upsertRow, lookupD_cons_self, lookupD, zeroCounts]
  | cons r rest ih =>
    obtain ⟨d0, c0⟩ := r
    by_cases h : d0 = d
    · subst h
      simp [upsertRow, lookupD_cons_self]
    · simp only [upsertRow, if_neg h]
      rw [lookupD_cons_ne _ _ _ _ h, lookupD_cons_ne _ _ _ _ h, ih]

lemma lookupD_upsert_ne (l : List (Int × Counts)) (d d2 : Int) (cc : CatCounts)
    (h : d2 ≠ d) :
    lookupD (upsertRow l d cc) d2 = lookupD l d2 := by
  have hnd : d ≠ d2 := fun he => h he.symm
  induction l with
  | nil =>
    simp only [upsertRow]
    rw [lookupD_cons_ne _ _ _ _ hnd]
  | cons r rest ih =>
    obtain ⟨d0, c0⟩ := r
    by_cases h0 : d0 = d
    · subst h0
      have hu : upsertRow ((d0, c0) :: rest) d0 cc =
          (d0, ⟨c0.total_corrections + 1, c0.spelling_count + cc.spelling,
            c0.grammar_count + cc.grammar, c0.style_count + cc.style,
            c0.vocabulary_count + cc.vocabulary⟩) :: rest := by
        simp [upsertRow]
      rw [hu, lookupD_cons_ne _ _ _ _ hnd, lookupD_cons_ne _ _ _ _ hnd]
    · simp only [upsertRow, if_neg h0]
      by_cases h2 : d0 = d2
      · subst h2
        rw [lookupD_cons_self, lookupD_cons_self]
      · rw [lookupD_cons_ne _ _ _ _ h2, lookupD_cons_ne _ _ _ _ h2, ih]

lemma corrCountOn_save (db : DB) (today : Int) (a : SaveArgs) (d : Int) :
    corrCountOn (save_correction db today a) d =
      corrCountOn db d + (if today = d then 1 else 0) := by
  rw [save_correction_eq]
  unfold corrCountOn
  simp only [List.filter_append, List.length_append]
  by_cases h : today = d
  · simp [h]
  · simp [h]

lemma lookupDaily_save_today (db : DB) (today : Int) (a : SaveArgs) :
    (lookupDaily (save_correction db today a) today).total_corrections =
      (lookupDaily db today).total_corrections + 1 := by
  rw [save_correction_eq]
  unfold lookupDaily
  simp only
  rw [lookupD_upsert_self]

lemma lookupDaily_save_ne (db : DB) (today : Int) (a : SaveArgs) (d : Int)
    (h : d ≠ today) :
    lookupDaily (save_correction db today a) d = lookupDaily db d := by
  rw [save_correction_eq]
  unfold lookupDaily
  simp only
  exact lookupD_upsert_ne _ _ _ _ h

/-- C5: `save_correction` is atomic — a run either leaves the database
untouched (failure at any point before the single final commit) or
applies the correction insert, the error inserts and the DailyCounter
upsert in full — and the completed run adds exactly one correction for
today and bumps today's counter total by exactly one, leaving every
other date's counter unchanged, so the DailyCounter invariant
(counter total = number of persisted corrections, for every date) is
preserved under any failure point. -/
theorem claim_C5_record_atomicity (db : DB) (today : Int) (a : SaveArgs)
    (failAt : Option Nat) (h : Consistent db) :
    (save_correction_run db today a failAt = db ∨
      save_correction_run db today a failAt = save_correction db today a) ∧
    Consistent (save_correction_run db today a failAt) ∧
    (lookupDaily (save_correction db today a) today).total_corrections =
      (lookupDaily db today).total_corrections + 1 ∧
    corrCountOn (save_correction db today a) today = corrCountOn db today + 1 ∧
    ∀ d : Int, d ≠ today → lookupDaily (save_correction db today a) d =
      lookupDaily db d := by
  have hsaveC : Consistent (save_correction db today a) := by
    intro d
    by_cases hd : d = today
    · subst hd
      rw [lookupDaily_save_today, corrCountOn_save]
      simp [h d]
    · rw [lookupDaily_save_ne db today a d hd, corrCountOn_save]
      have : ¬ (today = d) := fun he => hd he.symm
      simp [this, h d]
  refine ⟨?_, ?_, lookupDaily_save_today db today a, ?_, ?_⟩
  · cases failAt with
    | none => exact Or.inr rfl
    | some k => exact Or.inl (save_correction_run_abort db today a k)
  · cases failAt with
    | none => exact hsaveC
    | some k => rw [save_correction_run_abort]; exact h
  · rw [corrCountOn_save]; simp
  · exact fun d hd => lookupDaily_save_ne db today a d hd

lemma Consistent_emptyDB : Consistent emptyDB := by
  intro d
  simp [emptyDB, lookupDaily, lookupD, corrCountOn, zeroCounts, List.find?]

/-- Concrete instantiation data for the witnesses below. -/
def exArgs : SaveArgs :=
  ⟨exImprove, exImprove, [⟨"a", "an", "article", some "grammar"⟩], none,
    some "s"⟩

/-- Witness for C5 at the empty database, today = 0, failure after one
statement. -/
theorem claim_C5_record_atomicity_witness :
    (save_correction_run emptyDB 0 exArgs (some 1) = emptyDB ∨
      save_correction_run emptyDB 0 exArgs (some 1) =
        save_correction emptyDB 0 exArgs) ∧
    Consistent (save_correction_run emptyDB 0 exArgs (some 1)) ∧
    (lookupDaily (save_correction emptyDB 0 exArgs) 0).total_corrections =
      (lookupDaily emptyDB 0).total_corrections + 1 ∧
    corrCountOn (save_correction emptyDB 0 exArgs) 0 =
      corrCountOn emptyDB 0 + 1 ∧
    ∀ d : Int, d ≠ 0 → lookupDaily (save_correction emptyDB 0 exArgs) d =
      lookupDaily emptyDB d :=
  claim_C5_record_atomicity emptyDB 0 exArgs (some 1) Consistent_emptyDB

/-! ## Claim C8: frame effect of recording a correction -/

/-- Findings in categories {spelling: 1, grammar: 2}. -/
def errsSGG : List ErrRec :=
  [⟨"teh", "the", "typo", some "spelling"⟩,
   ⟨"a", "an", "article", some "grammar"⟩,
   ⟨"is", "are", "agreement", some "grammar"⟩]

def argsSGG : SaveArgs := ⟨exNpm, exNpm, errsSGG, none, none⟩

/-- A finding whose category string is not one of the four valid
categories. -/
def badErr : ErrRec := ⟨"becouse", "because", "typo", some "Misc"⟩

def argsBad : SaveArgs := ⟨exNpm, exNpm, [badErr], none, none⟩

/-- C8: recording a correction with findings {spelling: 1, grammar: 2}
bumps only today's DailyCounter row — total by 1, spelling by 1,
grammar by 2, style and vocabulary unchanged — every other date's row
is untouched, and an unrecognized category string ("Misc") is
normalized to "grammar" both in the stored error row and in the
counter increment. -/
theorem claim_C8_daily_counter_frame :
    (∀ (db : DB) (today d : Int) (a : SaveArgs), d ≠ today →
      lookupDaily (save_correction db today a) d = lookupDaily db d) ∧
    (∀ (db : DB) (today : Int),
      lookupDaily (save_correction db today argsSGG) today =
        ⟨(lookupDaily db today).total_corrections + 1,
         (lookupDaily db today).spelling_count + 1,
         (lookupDaily db today).grammar_count + 2,
         (lookupDaily db today).style_count,
         (lookupDaily db today).vocabulary_count⟩) ∧
    normalizeCategory (some "Misc") = "grammar" ∧
    (∀ (db : DB) (today : Int),
      (save_correction db today argsBad).errors =
        db.errors ++ [⟨db.nextErrId, db.nextCorrId, "becouse", "because",
          "typo", "grammar"⟩] ∧
      lookupDaily (save_correction db today argsBad) today =
        ⟨(lookupDaily db today).total_corrections + 1,
         (lookupDaily db today).spelling_count,
         (lookupDaily db today).grammar_count + 1,
         (lookupDaily db today).style_count,
         (lookupDaily db today).vocabulary_count⟩) := by
  have hSGG : categoryCounts argsSGG.errors = ⟨1, 2, 0, 0⟩ := by decide
  have hBad : categoryCounts argsBad.errors = ⟨0, 1, 0, 0⟩ := by decide
  have hNorm : normalizeCategory (some "Misc") = "grammar" := by decide
  refine ⟨fun db today d a h => lookupDaily_save_ne db today a d h, ?_, hNorm, ?_⟩
  · intro db today
    rw [save_correction_eq]
    unfold lookupDaily
    simp only
    rw [lookupD_upsert_self, hSGG]
    simp
  · intro db today
    constructor
    · rw [save_correction_eq]
      simp [errRowsFrom, badErr, hNorm]
    · rw [save_correction_eq]
      unfold lookupDaily
      simp only
      rw [lookupD_upsert_self, hBad]
      simp

/-- Witness for C8's frame hypothesis: recording on day 0 leaves day
1's counter unchanged at the empty database. -/
theorem claim_C8_daily_counter_frame_witness :
    lookupDaily (save_correction emptyDB 0 exArgs) 1 = lookupDaily emptyDB 1 :=
  claim_C8_daily_counter_frame.1 emptyDB 0 1 exArgs (by decide)

/-! ## Claim C4: weekly statistics

`get_weekly_stats` is evaluated at a database with one `daily_stats`
row, date 0 (a Monday) with `total_corrections = 5`, from "today" =
day 2 (the Wednesday of that week).  The Monday-start windows for
`weeks_back = 0` and `weeks_back = 1` are the adjacent, non-overlapping
spans `[0, 6]` and `[-7, -1]`, and the category counts are the sums
over the rows in the window — but `total_corrections` comes back as
`COUNT(*)` = 1 (the number of in-window rows, i.e. of active days),
not as the sum 5 of the rows' `total_corrections` (contrast
`get_all_time_stats`, which uses `SUM(total_corrections)` and labels
`COUNT(*)` as `total_days`). -/

def exWeeklyDB : DB := ⟨[], [], [(0, ⟨5, 2, 3, 0, 0⟩)], 1, 1⟩

/-- C4: at `exWeeklyDB` the window bounds and category sums match the
claim, but the code's `total_corrections` is the row count 1, not the
sum 5 of the in-window rows' totals. -/
theorem claim_C4_weekly_total_is_day_count :
    (get_weekly_stats exWeeklyDB 2 0).week_start = 0 ∧
    (get_weekly_stats exWeeklyDB 2 0).week_end = 6 ∧
    (get_weekly_stats exWeeklyDB 2 1).week_start = -7 ∧
    (get_weekly_stats exWeeklyDB 2 1).week_end = -1 ∧
    (get_weekly_stats exWeeklyDB 2 0).spelling_count = 2 ∧
    (get_weekly_stats exWeeklyDB 2 0).grammar_count = 3 ∧
    ((weekRows exWeeklyDB 0 6).map (fun r => r.2.total_corrections)).sum = 5 ∧
    (get_weekly_stats exWeeklyDB 2 0).total_corrections = 1 ∧
    (get_weekly_stats exWeeklyDB 2 0).total_corrections ≠
      ((weekRows exWeeklyDB 0 6).map (fun r => r.2.total_corrections)).sum := by
  decide

/-! ## Analyzer response parsing (`lib/claude_api.py`)

`analyze_grammar` first tries `json.loads` on the whole (stripped)
response text; on failure it searches `re.search(r'\x7b[\s\S]*\x7d',
text)` — the greedy match runs from the first opening brace to the
last closing brace — and tries `json.loads` on that substring; if that
also fails the result is `None`.  `json.loads` is external library
code; it is modelled here by an executable recursive-descent parser
`jLoads` over a JSON subset (objects, arrays, strings without escape
sequences, integers, booleans, null), which is all the recovery
theorems need: they depend only on the strict-then-extract strategy,
not on the parser's grammar. -/

def lbrace : Char := Char.ofNat 123

def rbrace : Char := Char.ofNat 125

inductive JVal where
  | jnull
  | jbool (b : Bool)
  | jnum (n : Int)
  | jstr (s : List Char)
  | jarr (elems : List JVal)
  | jobj (members : List (List Char × JVal))

def isJsonWs (c : Char) : Bool := c = ' ' || c = '\n' || c = '\t' || c = '\r'

def skipWs (s : List Char) : List Char := s.dropWhile isJsonWs

def isDigitChar (c : Char) : Bool := decide ('0' ≤ c) && decide (c ≤ '9')

def digitsToNat (l : List Char) : Nat :=
  l.foldl (fun acc c => acc * 10 + (c.toNat - 48)) 0

/-- Parse a nonempty digit run as a natural number. -/
def parseNatNum (s : List Char) : Option (Nat × List Char) :=
  let ds := s.takeWhile isDigitChar
  if ds.isEmpty then none
  else some (digitsToNat ds, s.drop ds.length)

/-- Parse the body of a string literal after the opening quote (no
escape sequences in this subset). -/
def parseStringBody (s : List Char) : Option (List Char × List Char) :=
  let content := s.takeWhile (fun c => !(c = '"'))
  match s.drop content.length with
  | '"' :: r => some (content, r)
  | _ => none

mutual

def parseVal : Nat → List Char → Option (JVal × List Char)
  | 0, _ => none
  | fuel + 1, s =>
    match skipWs s with
    | [] => none
    | c :: rest =>
      if c = lbrace then parseObj fuel rest
      else if c = '[' then parseArr fuel rest
      else if c = '"' then
        (parseStringBody rest).map fun p => (JVal.jstr p.1, p.2)
      else if c = '-' then
        match parseNatNum rest with
        | some (n, r) => some (JVal.jnum (-(n : Int)), r)
        | none => none
      else if isDigitChar c then
        match parseNatNum (c :: rest) with
        | some (n, r) => some (JVal.jnum (n : Int), r)
        | none => none
      else if c = 't' then
        match rest with
        | 'r' :: 'u' :: 'e' :: r => some (JVal.jbool true, r)
        | _ => none
      else if c = 'f' then
        match rest with
        | 'a' :: 'l' :: 's' :: 'e' :: r => some (JVal.jbool false, r)
        | _ => none
      else if c = 'n' then
        match rest with
        | 'u' :: 'l' :: 'l' :: r => some (JVal.jnull, r)
        | _ => none
      else none

def parseObj : Nat → List Char → Option (JVal × List Char)
  | 0, _ => none
  | fuel + 1, s =>
    match skipWs s with
    | [] => none
    | c :: rest =>
      if c = rbrace then some (JVal.jobj [], rest)
      else (parseMembers fuel (c :: rest)).map fun p => (JVal.jobj p.1, p.2)

def parseMembers : Nat → List Char →
    Option (List (List Char × JVal) × List Char)
  | 0, _ => none
  | fuel + 1, s =>
    match skipWs s with
    | '"' :: rest =>
      match parseStringBody rest with
      | some (key, r1) =>
        match skipWs r1 with
        | ':' :: r2 =>
          match parseVal fuel r2 with
          | some (v, r3) =>
            match skipWs r3 with
            | ',' :: r4 =>
              (parseMembers fuel r4).map fun p => ((key, v) :: p.1, p.2)
            | c :: r5 => if c = rbrace then some ([(key, v)], r5) else none
            | [] => none
          | none => none
        | _ => none
      | none => none
    | _ => none

def parseArr : Nat → List Char → Option (JVal × List Char)
  | 0, _ => none
  | fuel + 1, s =>
    match skipWs s with
    | [] => none
    | c :: rest =>
      if c = ']' then some (JVal.jarr [], rest)
      else (parseElems fuel (c :: rest)).map fun p => (JVal.jarr p.1, p.2)

def parseElems : Nat → List Char → Option (List JVal × List Char)
  | 0, _ => none
  | fuel + 1, s =>
    match parseVal fuel s with
    | some (v, r) =>
      match skipWs r with
      | ',' :: r2 => (parseElems fuel r2).map fun p => (v :: p.1, p.2)
      | ']' :: r2 => some ([v], r2)
      | _ => none
    | none => none

end

/-- Model of `json.loads`: parse one value and require only whitespace
to remain (the fuel bound `length + 1` never runs out because every
recursive call follows at least one consumed character). -/
def jLoads (s : List Char) : Option JVal :=
  match parseVal (s.length + 1) s with
  | some (v, rest) => if (skipWs rest).isEmpty then some v else none
  | none => none

/-- Suffix of the list starting at the first occurrence of `ch`. -/
def dropToChar (ch : Char) : List Char → Option (List Char)
  | [] => none
  | c :: rest => if c = ch then some (c :: rest) else dropToChar ch rest

/-- The greedy regex match: the substring from the first opening brace
through the last closing brace, when the first opening brace precedes
some closing brace. -/
def extractBraces (s : List Char) : Option (List Char) :=
  (dropToChar lbrace s).bind fun t =>
    (dropToChar rbrace t.reverse).map fun u => u.reverse

/-- The parse-and-recover sequence of `analyze_grammar` (lines
109-122): strict parse, then parse of the brace-delimited substring,
else `None`.  The input is the already-stripped response text (the
source strips leading and trailing whitespace first, which affects
neither attempt). -/
def parse_model_response (s : List Char) : Option JVal :=
  match jLoads s with
  | some v => some v
  | none =>
    match extractBraces s with
    | some t => jLoads t
    | none => none

def braceFree (l : List Char) : Prop := ∀ c ∈ l, c ≠ lbrace ∧ c ≠ rbrace

lemma dropToChar_append_of_not_mem (ch : Char) (xs ys : List Char)
    (h : ch ∉ xs) :
    dropToChar ch (xs ++ ys) = dropToChar ch ys := by
  induction xs with
  | nil => rfl
  | cons a xs ih =>
    have ha : a ≠ ch := fun he => h (he ▸ List.mem_cons_self a xs)
    simp only [List.cons_append, dropToChar, if_neg ha]
    exact ih fun hm => h (List.mem_cons_of_mem a hm)

lemma dropToChar_cons_self (ch : Char) (rest : List Char) :
    dropToChar ch (ch :: rest) = some (ch :: rest) := by
  simp [dropToChar]

lemma dropToChar_suffix (ch : Char) (s v : List Char)
    (h : dropToChar ch s = some v) : v <:+ s := by
  induction s with
  | nil => simp [dropToChar] at h
  | cons c rest ih =>
    by_cases hc : c = ch
    · rw [hc, dropToChar_cons_self] at h
      rw [← Option.some_inj.1 h, ← hc]
    · simp only [dropToChar, if_neg hc] at h
      exact (ih h).trans (List.suffix_cons c rest)

/-- The extracted substring is a contiguous substring of the response. -/
lemma extractBraces_substring (s u : List Char)
    (h : extractBraces s = some u) : u <:+: s := by
  unfold extractBraces at h
  cases hv : dropToChar lbrace s with
  | none => rw [hv] at h; simp at h
  | some v =>
    rw [hv] at h
    simp only [Option.some_bind] at h
    cases hx : dropToChar rbrace v.reverse with
    | none => rw [hx] at h; simp at h
    | some x =>
      rw [hx] at h
      simp only [Option.map_some'] at h
      obtain ⟨p, hp⟩ := dropToChar_suffix _ _ _ hv
      obtain ⟨q, hq⟩ := dropToChar_suffix _ _ _ hx
      have hu : u = x.reverse := (Option.some_inj.1 h).symm
      have hvx : x.reverse ++ q.reverse = v := by
        have h2 := congrArg List.reverse hq
        simpa using h2
      refine ⟨p, q.reverse, ?_⟩
      rw [hu, List.append_assoc, hvx]
      exact hp

/-- The brace-delimited substring of prose-wrapped JSON is recovered
exactly. -/
lemma extractBraces_sandwich (a b t : List Char)
    (ha : braceFree a) (hb : braceFree b)
    (hhead : t.head? = some lbrace) (hlast : t.getLast? = some rbrace) :
    extractBraces (a ++ t ++ b) = some t := by
  obtain ⟨t', rfl⟩ : ∃ t', t = lbrace :: t' := by
    cases t with
    | nil => simp at hhead
    | cons c rest =>
      simp only [List.head?_cons, Option.some_inj] at hhead
      exact ⟨rest, by rw [hhead]⟩
  have hna : lbrace ∉ a := fun hm => (ha _ hm).1 rfl
  have hnb : rbrace ∉ b.reverse := fun hm =>
    (hb _ (List.mem_reverse.1 hm)).2 rfl
  unfold extractBraces
  rw [List.append_assoc, dropToChar_append_of_not_mem _ _ _ hna,
    List.cons_append, dropToChar_cons_self]
  simp only [Option.some_bind]
  rw [List.reverse_cons, List.reverse_append, List.append_assoc,
    dropToChar_append_of_not_mem _ _ _ hnb]
  obtain ⟨w, hw⟩ : ∃ w, t'.reverse ++ [lbrace] = rbrace :: w := by
    have hh : (t'.reverse ++ [lbrace]).head? = some rbrace := by
      rw [← List.reverse_cons, List.head?_reverse]
      exact hlast
    cases hrev : t'.reverse ++ [lbrace] with
    | nil => rw [hrev] at hh; simp at hh
    | cons c w =>
      rw [hrev] at hh
      simp only [List.head?_cons, Option.some_inj] at hh
      exact ⟨w, by rw [hh]⟩
  rw [hw, dropToChar_cons_self]
  simp only [Option.map_some', Option.some_inj]
  rw [← hw, ← List.reverse_cons]
  simp

/-- A model response embedding one JSON object in surrounding prose. -/
def exProse : List Char :=
  "The analysis: ".data ++
    (lbrace :: ("\"has_errors\": true".data ++ [rbrace])) ++
    " hope this helps".data

/-- C9: the analyzer gateway tries a strict parse first and, on
failure, parses the substring from the first opening to the last
closing brace; hence a response wrapping one valid brace-delimited
JSON object in brace-free prose is always recovered, a response none
of whose substrings is valid JSON yields None, and the two concrete
examples behave accordingly. -/
theorem claim_C9_json_recovery :
    (∀ (a b t : List Char) (v : JVal),
        braceFree a → braceFree b →
        t.head? = some lbrace → t.getLast? = some rbrace →
        jLoads t = some v →
        parse_model_response (a ++ t ++ b) ≠ none) ∧
    (∀ s : List Char, (∀ u, u <:+: s → jLoads u = none) →
        parse_model_response s = none) ∧
    parse_model_response exProse =
      some (JVal.jobj [("has_errors".data, JVal.jbool true)]) ∧
    parse_model_response "no json here at all".data = none := by
  refine ⟨?_, ?_, by rfl, by rfl⟩
  · intro a b t v ha hb hh hl hj hcontra
    unfold parse_model_response at hcontra
    cases hs : jLoads (a ++ t ++ b) with
    | some w =>
      rw [hs] at hcontra
      simp at hcontra
    | none =>
      rw [hs, extractBraces_sandwich a b t ha hb hh hl] at hcontra
      simp only [] at hcontra
      rw [hj] at hcontra
      simp at hcontra
  · intro s h
    have h0 := h s (List.infix_refl s)
    cases he : extractBraces s with
    | none => simp [parse_model_response, h0, he]
    | some u => simp [parse_model_response, h0, he,
        h u (extractBraces_substring s u he)]

/-- Witness for C9: the prose-wrapped empty object is recovered, and
the empty response (no substring parses) yields None. -/
theorem claim_C9_json_recovery_witness :
    parse_model_response ("ok ".data ++ (lbrace :: [rbrace]) ++ " done".data) ≠
      none ∧
    parse_model_response [] = none := by
  constructor
  · exact claim_C9_json_recovery.1 "ok ".data " done".data (lbrace :: [rbrace])
      (JVal.jobj []) (by unfold braceFree; decide) (by unfold braceFree; decide)
      rfl rfl rfl
  · refine claim_C9_json_recovery.2.1 [] ?_
    intro u hu
    obtain ⟨p, q, hpq⟩ := hu
    rcases List.append_eq_nil.1 hpq with ⟨h1, h2⟩
    rcases List.append_eq_nil.1 h1 with ⟨h3, h4⟩
    rw [h4]
    rfl

/-! ## Orchestration (`scripts/check_grammar.py`, `scripts/recall.py`,
`lib/obsidian.py`)

The pipelines are embedded as state transformers over a `World`
holding the database, the persisted retry-queue file, an event trace,
and the failure mode of the Obsidian log file system (whether the
directory creation in `get_obsidian_path` fails, and whether opening
or appending to the daily file fails).  The analyzer outcome of each
`analyze_grammar` call is an input (the external service's response);
notifications are fire-and-forget external collaborators and are not
modelled. -/

/-- The validated analyzer result dict.  `none` models an absent key;
`has_errors` and `skipped` are used for their truthiness. -/
structure Analysis where
  has_errors : Bool
  user_text : Option Text
  errors : List ErrRec
  better_expression : Option Text
  summary : Option String
  skipped : Bool
deriving DecidableEq, Repr

/-- The guard `analysis.get('has_errors') or
analysis.get('better_expression')`: Python truthiness, so a missing or
empty better-expression string is falsy. -/
def hasFindings (a : Analysis) : Bool :=
  a.has_errors ||
    (match a.better_expression with
     | some t => !t.isEmpty
     | none => false)

/-- Observable pipeline events: an `analyze_grammar` call, the
invocation of the Obsidian `save_correction`, the SQLite
`save_correction`, and the retry delay `time.sleep(2)`. -/
inductive Ev where
  | apiCall (prompt : Text)
  | obsCall (prompt : Text)
  | dbWrite (prompt : Text)
  | sleep
deriving DecidableEq, Repr

/-- One entry of the retry-queue file: a JSON object with a `prompt`
and an optional `timestamp` field. -/
structure QItem where
  prompt : Option Text
  timestamp : Option Int
deriving DecidableEq, Repr

structure World where
  db : DB
  queue : List QItem
  events : List Ev
  mkdirFails : Bool
  writeFails : Bool
deriving DecidableEq, Repr

def logEv (w : World) (evs : List Ev) : World :=
  { w with events := w.events ++ evs }

/-- `obsidian.save_correction`: `get_daily_file_path` calls
`get_obsidian_path`, whose `mkdir` runs before the try-block, so a
directory-creation failure raises to the caller; a failure opening or
appending the daily file is caught inside the try-block, reported on
stderr, and returned as `False`; otherwise the block is appended and
`True` returned. -/
def obsidian_save (w : World) (prompt : Text) (_a : Analysis) :
    World × Except Unit Bool :=
  let w1 := logEv w [Ev.obsCall prompt]
  if w1.mkdirFails then (w1, Except.error ())
  else if w1.writeFails then (w1, Except.ok false)
  else (w1, Except.ok true)

/-- The `save_to_db` call, identical in `check_grammar.py` (lines
82-89) and `recall.py` (lines 207-214): original text is the raw
prompt, user text defaults to the prompt when the key is absent. -/
def save_to_db_call (w : World) (prompt : Text) (a : Analysis)
    (today : Int) : World :=
  { w with
      db := save_correction w.db today
        ⟨prompt, a.user_text.getD prompt, a.errors, a.better_expression,
          a.summary⟩,
      events := w.events ++ [Ev.dbWrite prompt] }

/-- The record block guarded by `has_errors or better_expression`,
identical in both scripts: Obsidian save first, SQLite save second; an
exception raised by the Obsidian step propagates, skipping the SQLite
save.  The boolean is `process_analysis`'s `had findings` result. -/
def recordBlock (w : World) (prompt : Text) (a : Analysis) (today : Int) :
    World × Except Unit Bool :=
  if hasFindings a then
    match obsidian_save w prompt a with
    | (w1, Except.error _) => (w1, Except.error ())
    | (w1, Except.ok _) => (save_to_db_call w1 prompt a today, Except.ok true)
  else (w, Except.ok false)

/-- `process_analysis` from `recall.py`. -/
def process_analysis (w : World) (prompt : Text) (a : Analysis)
    (today : Int) : World × Except Unit Bool :=
  if a.skipped then (w, Except.ok false)
  else recordBlock w prompt a today

/-- `main` from `check_grammar.py`: admission check, analyzer call
(its outcome is the `analysisResult` input; `none` is the Failed
outcome), skip check, record block.  The surrounding try/except
swallows any exception, and every path prints an empty JSON object and
exits 0, so the function returns the final world unconditionally. -/
def check_grammar_main (w : World) (prompt : Text)
    (analysisResult : Option Analysis) (today : Int) : World :=
  if !should_check_grammar prompt then w
  else
    let w1 := logEv w [Ev.apiCall prompt]
    match analysisResult with
    | none => w1
    | some a =>
      if a.skipped then w1
      else (recordBlock w1 prompt a today).1

/-- Result of the drain loop in `recall.py`'s `main`: the world after
the loop, whether an uncaught exception aborted it, the still-failed
items, and the two loop counters. -/
structure DrainOutcome where
  w : World
  crashed : Bool
  stillFailed : List QItem
  successCount : Nat
  findingsCount : Nat
deriving DecidableEq, Repr

/-- The drain loop of `recall.py`'s `main`.  Each queue item is paired
with the analyzer outcomes of its (up to) two attempts.  An item with
a missing or empty `prompt` is skipped outright; an item the admission
filter now rejects counts as resolved; otherwise the analyzer runs up
to twice with a sleep between attempts; a still-failed item is kept;
otherwise `process_analysis` runs (an exception it raises aborts the
whole loop uncaught). -/
def drainGo (w : World) (today : Int) :
    List (QItem × (Option Analysis × Option Analysis)) → DrainOutcome
  | [] => ⟨w, false, [], 0, 0⟩
  | (item, (o1, o2)) :: rest =>
    let p := item.prompt.getD []
    if p.isEmpty then drainGo w today rest
    else if !should_check_grammar p then
      let r := drainGo w today rest
      { r with successCount := r.successCount + 1 }
    else
      let step :=
        match o1 with
        | some a => (logEv w [Ev.apiCall p], some a)
        | none => (logEv w [Ev.apiCall p, Ev.sleep, Ev.apiCall p], o2)
      match step.2 with
      | none =>
        let r := drainGo step.1 today rest
        { r with stillFailed := item :: r.stillFailed }
      | some a =>
        match process_analysis step.1 p a today with
        | (w2, Except.error _) => ⟨w2, true, [], 0, 0⟩
        | (w2, Except.ok had) =>
          let r := drainGo w2 today rest
          { r with
              successCount := r.successCount + 1,
              findingsCount := if had then r.findingsCount + 1
                else r.findingsCount }

/-- `main` from `recall.py`: an empty queue returns without touching
the queue file; otherwise the queue is drained and the file rewritten
with the still-failed items — unless an uncaught exception aborted the
loop first, in which case the file is left as it was. -/
def recall_main (w : World) (today : Int)
    (items : List (QItem × (Option Analysis × Option Analysis))) : World :=
  if items.isEmpty then w
  else
    let r := drainGo w today items
    if r.crashed then r.w
    else { r.w with queue := r.stillFailed }

/-! ### Per-entry drain characterization -/

def entryPrompt (e : QItem × (Option Analysis × Option Analysis)) : Text :=
  e.1.prompt.getD []

/-- The analyzer outcome the drain ends up with for an entry: the
first attempt's, or the second attempt's when the first Failed. -/
def entryAnalysis (e : QItem × (Option Analysis × Option Analysis)) :
    Option Analysis :=
  match e.2.1 with
  | some a => some a
  | none => e.2.2

/-- The entry reaches the analyzer: nonempty prompt, admitted. -/
def entryAttempted (e : QItem × (Option Analysis × Option Analysis)) : Bool :=
  !(entryPrompt e).isEmpty && should_check_grammar (entryPrompt e)

/-- The entry Failed on both attempts and stays queued. -/
def entryDoubleFailed (e : QItem × (Option Analysis × Option Analysis)) :
    Bool :=
  entryAttempted e && decide (entryAnalysis e = none)

/-- The entry counts toward the resolved-ok summary count. -/
def entryResolvedOk (e : QItem × (Option Analysis × Option Analysis)) : Bool :=
  !(entryPrompt e).isEmpty &&
    (!should_check_grammar (entryPrompt e) ||
      decide (entryAnalysis e ≠ none))

/-- The entry counts toward the resolved-with-findings count. -/
def entryHadFindings (e : QItem × (Option Analysis × Option Analysis)) :
    Bool :=
  entryAttempted e &&
    (match entryAnalysis e with
     | some a => !a.skipped && hasFindings a
     | none => false)

/-- The events one entry contributes to the drain trace (when the
Obsidian directory is creatable, so no entry aborts the loop). -/
def entryEvents (e : QItem × (Option Analysis × Option Analysis)) :
    List Ev :=
  if !entryAttempted e then []
  else
    let p := entryPrompt e
    let calls :=
      match e.2.1 with
      | some _ => [Ev.apiCall p]
      | none => [Ev.apiCall p, Ev.sleep, Ev.apiCall p]
    match entryAnalysis e with
    | none => calls
    | some a =>
      if !a.skipped && hasFindings a then
        calls ++ [Ev.obsCall p, Ev.dbWrite p]
      else calls

/-! ## Claims C1, C3 and the C2 ordering -/

instance : DecidableEq (Except Unit Bool) := fun a b =>
  match a, b with
  | Except.error u, Except.error v =>
    match u, v with
    | (), () => isTrue rfl
  | Except.ok x, Except.ok y =>
    if h : x = y then isTrue (by rw [h]) else isFalse (by simp [h])
  | Except.error _, Except.ok _ => isFalse (by simp)
  | Except.ok _, Except.error _ => isFalse (by simp)

/-- A world with a working log file system, empty store and queue. -/
def w0 : World := ⟨emptyDB, [], [], false, false⟩

/-- A world where the Obsidian directory cannot be created. -/
def wMkdirFail : World := ⟨emptyDB, [], [], true, false⟩

/-- A world where the daily log file cannot be opened or written. -/
def wWriteFail : World := ⟨emptyDB, [], [], false, true⟩

/-- An analyzer Findings outcome with one grammar error. -/
def exAnalysisErr : Analysis :=
  ⟨true, some exImprove, [⟨"a", "an", "article", some "grammar"⟩], none,
    some "s", false⟩

/-- C1: when `analyze_grammar` returns no parseable result (`None`),
`check_grammar.py`'s `main` falls through to the empty hook reply
without writing anything — in particular the retry-queue file is left
exactly as it was, so no retry-queue entry containing the failed text
exists after the invocation (nothing in `check_grammar.py` enqueues;
only `recall.py` ever writes the queue file). -/
theorem claim_C1_failed_analysis_not_enqueued :
    (∀ (w : World) (prompt : Text) (today : Int),
        (check_grammar_main w prompt none today).queue = w.queue ∧
        (check_grammar_main w prompt none today).db = w.db) ∧
    should_check_grammar exImprove = true ∧
    (check_grammar_main w0 exImprove none 0).queue = [] := by
  refine ⟨?_, by decide, by decide⟩
  intro w prompt today
  unfold check_grammar_main
  cases h : should_check_grammar prompt <;> simp [h, logEv]

/-- C3: with an uncreatable Obsidian directory the Log Writer raises
(`mkdir` runs before the try-block), and because the log call precedes
the database call in `main`, the swallowed exception also prevents the
Correction insert and the DailyCounter increment; only a failure of
the file write itself is returned as `False` and leaves the database
write intact. -/
theorem claim_C3_log_failure_regression :
    (obsidian_save wMkdirFail exImprove exAnalysisErr).2 = Except.error () ∧
    (check_grammar_main wMkdirFail exImprove (some exAnalysisErr) 0).db =
      wMkdirFail.db ∧
    (lookupDaily (check_grammar_main wMkdirFail exImprove
      (some exAnalysisErr) 0).db 0).total_corrections = 0 ∧
    (obsidian_save wWriteFail exImprove exAnalysisErr).2 = Except.ok false ∧
    (lookupDaily (check_grammar_main wWriteFail exImprove
      (some exAnalysisErr) 0).db 0).total_corrections = 1 ∧
    corrCountOn (check_grammar_main wWriteFail exImprove
      (some exAnalysisErr) 0).db 0 = 1 := by
  decide

/-- The ordering claimed by the specification: the structured-store
write happens first and the log write second. -/
def storeThenLog (tr : List Ev) (p : Text) : Prop :=
  ∃ i j : Fin tr.length, (i : Nat) < (j : Nat) ∧
    tr.get i = Ev.dbWrite p ∧ tr.get j = Ev.obsCall p

instance (tr : List Ev) (p : Text) : Decidable (storeThenLog tr p) := by
  unfold storeThenLog
  infer_instance

/-- C2 counterexample: on a recorded primary-pipeline run the event
trace is analyzer call, then Obsidian save, then SQLite save — the log
write precedes the structured-store write, so the claimed
store-first-log-second order does not hold. -/
theorem claim_C2_counterexample_store_not_first :
    (check_grammar_main w0 exImprove (some exAnalysisErr) 0).events =
      [Ev.apiCall exImprove, Ev.obsCall exImprove, Ev.dbWrite exImprove] ∧
    ¬ storeThenLog
      (check_grammar_main w0 exImprove (some exAnalysisErr) 0).events
      exImprove := by
  constructor
  · decide
  · decide

/-! ## Event-trace lemmas -/

/-- The events `process_analysis` contributes: nothing when skipped or
without findings; the Obsidian call alone when the directory creation
raises; otherwise the Obsidian call followed by the database write. -/
def paEvents (mk : Bool) (p : Text) (a : Analysis) : List Ev :=
  if a.skipped then []
  else if hasFindings a then
    (if mk then [Ev.obsCall p] else [Ev.obsCall p, Ev.dbWrite p])
  else []

lemma process_analysis_fst_events (w : World) (p : Text) (a : Analysis)
    (today : Int) :
    (process_analysis w p a today).1.events =
      w.events ++ paEvents w.mkdirFails p a := by
  unfold process_analysis recordBlock obsidian_save save_to_db_call logEv
    paEvents
  by_cases hs : a.skipped
  · simp [hs]
  · by_cases hf : hasFindings a
    · by_cases hm : w.mkdirFails
      · simp [hs, hf, hm]
      · by_cases hw : w.writeFails <;> simp [hs, hf, hm, hw]
    · simp [hs, hf]

lemma process_analysis_fst_queue (w : World) (p : Text) (a : Analysis)
    (today : Int) :
    (process_analysis w p a today).1.queue = w.queue := by
  unfold process_analysis recordBlock obsidian_save save_to_db_call logEv
  by_cases hs : a.skipped
  · simp [hs]
  · by_cases hf : hasFindings a
    · by_cases hm : w.mkdirFails
      · simp [hs, hf, hm]
      · by_cases hw : w.writeFails <;> simp [hs, hf, hm, hw]
    · simp [hs, hf]

lemma process_analysis_fst_mkdirFails (w : World) (p : Text) (a : Analysis)
    (today : Int) :
    (process_analysis w p a today).1.mkdirFails = w.mkdirFails := by
  unfold process_analysis recordBlock obsidian_save save_to_db_call logEv
  by_cases hs : a.skipped
  · simp [hs]
  · by_cases hf : hasFindings a
    · by_cases hm : w.mkdirFails
      · simp [hs, hf, hm]
      · by_cases hw : w.writeFails <;> simp [hs, hf, hm, hw]
    · simp [hs, hf]

/-- With a creatable log directory, `process_analysis` never raises
and reports findings exactly when the record path ran. -/
lemma process_analysis_snd (w : World) (p : Text) (a : Analysis)
    (today : Int) (hm : w.mkdirFails = false) :
    (process_analysis w p a today).2 =
      Except.ok (!a.skipped && hasFindings a) := by
  unfold process_analysis recordBlock obsidian_save save_to_db_call logEv
  by_cases hs : a.skipped
  · simp [hs]
  · by_cases hf : hasFindings a
    · by_cases hw : w.writeFails <;> simp [hs, hf, hm, hw]
    · simp [hs, hf]

/-- The amended ordering property: every database write in a trace is
preceded by an Obsidian log call for the same prompt. -/
def logBeforeStore (tr : List Ev) : Prop :=
  ∀ (i : Nat) (p : Text), tr.get? i = some (Ev.dbWrite p) →
    ∃ j, j < i ∧ tr.get? j = some (Ev.obsCall p)

lemma logBeforeStore_append (tr suf : List Ev)
    (h1 : logBeforeStore tr) (h2 : logBeforeStore suf) :
    logBeforeStore (tr ++ suf) := by
  intro i p hi
  by_cases hlt : i < tr.length
  · rw [List.get?_append hlt] at hi
    obtain ⟨j, hj, hjw⟩ := h1 i p hi
    exact ⟨j, hj, by rw [List.get?_append (lt_trans hj hlt)]; exact hjw⟩
  · push_neg at hlt
    rw [List.get?_append_right hlt] at hi
    obtain ⟨j, hj, hjw⟩ := h2 (i - tr.length) p hi
    refine ⟨tr.length + j, by omega, ?_⟩
    rw [List.get?_append_right (by omega)]
    have : tr.length + j - tr.length = j := by omega
    rw [this]
    exact hjw

lemma logBeforeStore_of_no_db (l : List Ev)
    (h : ∀ p, Ev.dbWrite p ∉ l) : logBeforeStore l := by
  intro i p hi
  have hm := List.get?_mem hi
  exact absurd hm (h p)

lemma logBeforeStore_pair (p : Text) :
    logBeforeStore [Ev.obsCall p, Ev.dbWrite p] := by
  intro i q hi
  match i, hi with
  | 0, hi => simp [List.get?] at hi
  | 1, hi =>
    simp only [List.get?] at hi
    refine ⟨0, by omega, ?_⟩
    simp only [List.get?]
    rw [Option.some_inj] at hi ⊢
    cases hi
    rfl
  | n + 2, hi => simp [List.get?] at hi

lemma logBeforeStore_paEvents (mk : Bool) (p : Text) (a : Analysis) :
    logBeforeStore (paEvents mk p a) := by
  unfold paEvents
  by_cases hs : a.skipped
  · simp only [hs, if_pos]
    exact logBeforeStore_of_no_db [] (by simp)
  · by_cases hf : hasFindings a
    · cases mk with
      | true =>
        simp only [hs, hf, if_neg, if_pos, if_true]
        exact logBeforeStore_of_no_db [Ev.obsCall p] (by simp)
      | false =>
        simp only [hs, hf, if_neg, if_pos, if_false]
        exact logBeforeStore_pair p
    · simp only [hs, hf, if_neg]
      exact logBeforeStore_of_no_db [] (by simp)

lemma logBeforeStore_process_analysis (w : World) (p : Text) (a : Analysis)
    (today : Int) (h : logBeforeStore w.events) :
    logBeforeStore (process_analysis w p a today).1.events := by
  rw [process_analysis_fst_events]
  exact logBeforeStore_append _ _ h (logBeforeStore_paEvents _ _ _)

lemma logBeforeStore_drainGo (today : Int) :
    ∀ (items : List (QItem × (Option Analysis × Option Analysis)))
      (w : World), logBeforeStore w.events →
      logBeforeStore (drainGo w today items).w.events := by
  intro items
  induction items with
  | nil => intro w h; exact h
  | cons e rest ih =>
    intro w h
    obtain ⟨item, o1, o2⟩ := e
    unfold drainGo
    by_cases hp : (item.prompt.getD []).isEmpty
    · simp only [hp, if_pos]
      exact ih w h
    · by_cases hc : should_check_grammar (item.prompt.getD [])
      · simp only [hp, hc, if_neg, Bool.not_true, Bool.false_eq_true,
          if_false]
        have hstep : ∀ (w1 : World) (oa : Option Analysis),
            logBeforeStore w1.events →
            logBeforeStore
              ((match oa with
                | none =>
                  let r := drainGo w1 today rest
                  { r with stillFailed := item :: r.stillFailed }
                | some a =>
                  match process_analysis w1 (item.prompt.getD []) a today with
                  | (w2, Except.error _) => ⟨w2, true, [], 0, 0⟩
                  | (w2, Except.ok had) =>
                    let r := drainGo w2 today rest
                    { r with
                        successCount := r.successCount + 1,
                        findingsCount := if had then r.findingsCount + 1
                          else r.findingsCount } : DrainOutcome)).w.events := by
          intro w1 oa h1
          cases oa with
          | none => exact ih w1 h1
          | some a =>
            dsimp only
            have h2 := logBeforeStore_process_analysis w1
              (item.prompt.getD []) a today h1
            obtain ⟨w2, r2, hpa⟩ : ∃ w2 r2,
                process_analysis w1 (item.prompt.getD []) a today = (w2, r2) :=
              ⟨_, _, rfl⟩
            rw [hpa] at h2 ⊢
            cases r2 with
            | error u => exact h2
            | ok had => exact ih w2 h2
        cases o1 with
        | some a =>
          exact hstep (logEv w [Ev.apiCall (item.prompt.getD [])]) (some a)
            (logBeforeStore_append _ _ h
              (logBeforeStore_of_no_db _ (by simp)))
        | none =>
          exact hstep
            (logEv w [Ev.apiCall (item.prompt.getD []), Ev.sleep,
              Ev.apiCall (item.prompt.getD [])]) o2
            (logBeforeStore_append _ _ h
              (logBeforeStore_of_no_db _ (by simp)))
      · simp only [hp, hc, if_neg, Bool.not_false, if_true]
        exact ih w h

/-! ## Drain-loop characterization -/

lemma paEvents_false (p : Text) (a : Analysis) :
    paEvents false p a =
      (if !a.skipped && hasFindings a then [Ev.obsCall p, Ev.dbWrite p]
       else []) := by
  unfold paEvents
  by_cases hs : a.skipped
  · simp [hs]
  · by_cases hf : hasFindings a <;> simp [hs, hf]

lemma drainGo_cons_empty (w : World) (today : Int) (item : QItem)
    (o1 o2 : Option Analysis)
    (rest : List (QItem × (Option Analysis × Option Analysis)))
    (hp : (item.prompt.getD []).isEmpty = true) :
    drainGo w today ((item, (o1, o2)) :: rest) = drainGo w today rest := by
  simp only [drainGo]
  simp [hp]

lemma drainGo_cons_rejected (w : World) (today : Int) (item : QItem)
    (o1 o2 : Option Analysis)
    (rest : List (QItem × (Option Analysis × Option Analysis)))
    (hp : (item.prompt.getD []).isEmpty = false)
    (hc : should_check_grammar (item.prompt.getD []) = false) :
    drainGo w today ((item, (o1, o2)) :: rest) =
      { drainGo w today rest with
          successCount := (drainGo w today rest).successCount + 1 } := by
  simp only [drainGo]
  simp [hp, hc]

lemma drainGo_cons_attempt_first (w : World) (today : Int) (item : QItem)
    (o2 : Option Analysis) (a : Analysis)
    (rest : List (QItem × (Option Analysis × Option Analysis)))
    (hp : (item.prompt.getD []).isEmpty = false)
    (hc : should_check_grammar (item.prompt.getD []) = true) :
    drainGo w today ((item, (some a, o2)) :: rest) =
      (match process_analysis (logEv w [Ev.apiCall (item.prompt.getD [])])
          (item.prompt.getD []) a today with
       | (w2, Except.error _) => (⟨w2, true, [], 0, 0⟩ : DrainOutcome)
       | (w2, Except.ok had) =>
         let r := drainGo w2 today rest
         { r with
             successCount := r.successCount + 1,
             findingsCount := if had then r.findingsCount + 1
               else r.findingsCount }) := by
  simp only [drainGo]
  simp [hp, hc]

lemma drainGo_cons_double_failed (w : World) (today : Int) (item : QItem)
    (rest : List (QItem × (Option Analysis × Option Analysis)))
    (hp : (item.prompt.getD []).isEmpty = false)
    (hc : should_check_grammar (item.prompt.getD []) = true) :
    drainGo w today ((item, (none, none)) :: rest) =
      (let r := drainGo (logEv w [Ev.apiCall (item.prompt.getD []), Ev.sleep,
          Ev.apiCall (item.prompt.getD [])]) today rest
       { r with stillFailed := item :: r.stillFailed }) := by
  simp only [drainGo]
  simp [hp, hc]

lemma drainGo_cons_attempt_second (w : World) (today : Int) (item : QItem)
    (a : Analysis)
    (rest : List (QItem × (Option Analysis × Option Analysis)))
    (hp : (item.prompt.getD []).isEmpty = false)
    (hc : should_check_grammar (item.prompt.getD []) = true) :
    drainGo w today ((item, (none, some a)) :: rest) =
      (match process_analysis (logEv w [Ev.apiCall (item.prompt.getD []),
          Ev.sleep, Ev.apiCall (item.prompt.getD [])])
          (item.prompt.getD []) a today with
       | (w2, Except.error _) => (⟨w2, true, [], 0, 0⟩ : DrainOutcome)
       | (w2, Except.ok had) =>
         let r := drainGo w2 today rest
         { r with
             successCount := r.successCount + 1,
             findingsCount := if had then r.findingsCount + 1
               else r.findingsCount }) := by
  simp only [drainGo]
  simp [hp, hc]

/-- Master characterization of the drain loop when the log directory
is creatable: it never aborts, the still-failed list is exactly the
double-Failed entries in original order, the event trace is the
concatenation of the per-entry traces in original order, the queue
file is untouched by the loop itself, and the two counters count the
resolved-ok and resolved-with-findings entries. -/
lemma drainGo_spec (today : Int) :
    ∀ (items : List (QItem × (Option Analysis × Option Analysis)))
      (w : World), w.mkdirFails = false →
      (drainGo w today items).crashed = false ∧
      (drainGo w today items).stillFailed =
        (items.filter entryDoubleFailed).map Prod.fst ∧
      (drainGo w today items).w.events =
        w.events ++ items.flatMap entryEvents ∧
      (drainGo w today items).w.queue = w.queue ∧
      (drainGo w today items).w.mkdirFails = false ∧
      (drainGo w today items).successCount =
        (items.filter entryResolvedOk).length ∧
      (drainGo w today items).findingsCount =
        (items.filter entryHadFindings).length := by
  intro items
  induction items with
  | nil =>
    intro w hm
    simp [drainGo, hm]
  | cons e rest ih =>
    intro w hm
    obtain ⟨item, o1, o2⟩ := e
    by_cases hp : (item.prompt.getD []).isEmpty
    · have hA : entryAttempted (item, (o1, o2)) = false := by
        simp [entryAttempted, entryPrompt, hp]
      rw [drainGo_cons_empty _ _ _ _ _ _ hp]
      obtain ⟨c1, c2, c3, c4, c5, c6, c7⟩ := ih w hm
      refine ⟨c1, ?_, ?_, c4, c5, ?_, ?_⟩
      · rw [c2]
        have : entryDoubleFailed (item, (o1, o2)) = false := by
          simp [entryDoubleFailed, hA]
        simp [List.filter_cons, this]
      · rw [c3]
        have : entryEvents (item, (o1, o2)) = [] := by
          simp [entryEvents, hA]
        simp [List.flatMap_cons, this]
      · rw [c6]
        have : entryResolvedOk (item, (o1, o2)) = false := by
          simp [entryResolvedOk, entryPrompt, hp]
        simp [List.filter_cons, this]
      · rw [c7]
        have : entryHadFindings (item, (o1, o2)) = false := by
          simp [entryHadFindings, hA]
        simp [List.filter_cons, this]
    · have hpf : (item.prompt.getD []).isEmpty = false := by
        simpa using hp
      by_cases hc : should_check_grammar (item.prompt.getD [])
      · -- attempted: the analyzer runs
        have hstep : ∀ (w1 : World) (evs : List Ev) (oa : Option Analysis),
            w1 = logEv w evs →
            (∀ x ∈ evs, ∀ q : Text, x ≠ Ev.dbWrite q) →
            oa = entryAnalysis (item, (o1, o2)) →
            True := fun _ _ _ _ _ _ => trivial
        cases o1 with
        | some a =>
          rw [drainGo_cons_attempt_first _ _ _ _ _ _ hpf hc]
          have hm1 : (logEv w [Ev.apiCall (item.prompt.getD [])]).mkdirFails
              = false := hm
          obtain ⟨w2, r2, hpa⟩ : ∃ w2 r2,
              process_analysis (logEv w [Ev.apiCall (item.prompt.getD [])])
                (item.prompt.getD []) a today = (w2, r2) := ⟨_, _, rfl⟩
          have hsnd := process_analysis_snd
            (logEv w [Ev.apiCall (item.prompt.getD [])])
            (item.prompt.getD []) a today hm1
          have hr2 : r2 = Except.ok (!a.skipped && hasFindings a) := by
            have h2 := congrArg Prod.snd hpa
            rw [hsnd] at h2
            exact h2.symm
          have hfst : (process_analysis (logEv w [Ev.apiCall (item.prompt.getD [])])
              (item.prompt.getD []) a today).1 = w2 := by
            rw [hpa]
          have hev2 : w2.events = (logEv w [Ev.apiCall (item.prompt.getD [])]).events
              ++ paEvents false (item.prompt.getD []) a := by
            rw [← hfst, process_analysis_fst_events, hm1]
          have hq2 : w2.queue = w.queue := by
            rw [← hfst, process_analysis_fst_queue]
            rfl
          have hm2 : w2.mkdirFails = false := by
            rw [← hfst, process_analysis_fst_mkdirFails]
            exact hm1
          rw [hpa, hr2]
          dsimp only
          obtain ⟨c1, c2, c3, c4, c5, c6, c7⟩ := ih w2 hm2
          have hAt : entryAttempted (item, (some a, o2)) = true := by
            simp [entryAttempted, entryPrompt, hpf, hc]
          have hAn : entryAnalysis (item, (some a, o2)) = some a := rfl
          have hDF : entryDoubleFailed (item, (some a, o2)) = false := by
            simp [entryDoubleFailed, hAn]
          have hRO : entryResolvedOk (item, (some a, o2)) = true := by
            simp [entryResolvedOk, entryPrompt, hpf, hc, hAn]
          have hHF : entryHadFindings (item, (some a, o2)) =
              (!a.skipped && hasFindings a) := by
            simp [entryHadFindings, hAt, hAn]
          have hEV : entryEvents (item, (some a, o2)) =
              Ev.apiCall (item.prompt.getD []) ::
                paEvents false (item.prompt.getD []) a := by
            unfold entryEvents
            rw [hAt]
            simp only [Bool.not_true, Bool.false_eq_true, if_false]
            rw [hAn, paEvents_false]
            by_cases hsk : (!a.skipped && hasFindings a) = true
            · simp [entryPrompt, hsk]
            · simp only [Bool.not_eq_true] at hsk
              simp [entryPrompt, hsk]
          refine ⟨c1, ?_, ?_, by rw [c4]; exact hq2, c5, ?_, ?_⟩
          · rw [c2]
            simp [List.filter_cons, hDF]
          · rw [c3, hev2]
            simp [List.flatMap_cons, hEV, logEv, List.append_assoc]
          · rw [c6]
            simp [List.filter_cons, hRO]
          · rw [c7]
            by_cases hhad : (!a.skipped && hasFindings a) = true
            · simp [hhad, List.filter_cons, hHF]
            · simp only [Bool.not_eq_true] at hhad
              simp [hhad, List.filter_cons, hHF]
        | none =>
          cases o2 with
          | none =>
            rw [drainGo_cons_double_failed _ _ _ _ hpf hc]
            dsimp only
            have hm1 : (logEv w [Ev.apiCall (item.prompt.getD []), Ev.sleep,
                Ev.apiCall (item.prompt.getD [])]).mkdirFails = false := hm
            obtain ⟨c1, c2, c3, c4, c5, c6, c7⟩ :=
              ih (logEv w [Ev.apiCall (item.prompt.getD []), Ev.sleep,
                Ev.apiCall (item.prompt.getD [])]) hm1
            have hAt : entryAttempted (item, (none, none)) = true := by
              simp [entryAttempted, entryPrompt, hpf, hc]
            have hAn : entryAnalysis (item, ((none : Option Analysis),
                (none : Option Analysis))) = none := rfl
            have hDF : entryDoubleFailed (item, ((none : Option Analysis),
                (none : Option Analysis))) = true := by
              simp [entryDoubleFailed, hAt, hAn]
            have hRO : entryResolvedOk (item, ((none : Option Analysis),
                (none : Option Analysis))) = false := by
              simp [entryResolvedOk, entryPrompt, hpf, hc, entryAnalysis]
            have hHF : entryHadFindings (item, ((none : Option Analysis),
                (none : Option Analysis))) = false := by
              simp [entryHadFindings, hAt, entryAnalysis]
            have hEV : entryEvents (item, ((none : Option Analysis),
                (none : Option Analysis))) =
                [Ev.apiCall (item.prompt.getD []), Ev.sleep,
                  Ev.apiCall (item.prompt.getD [])] := by
              unfold entryEvents
              rw [hAt]
              simp [entryPrompt, entryAnalysis]
            refine ⟨c1, ?_, ?_, c4, c5, ?_, ?_⟩
            · rw [c2]
              simp [List.filter_cons, hDF]
            · rw [c3]
              simp [List.flatMap_cons, hEV, logEv, List.append_assoc]
            · rw [c6]
              simp [List.filter_cons, hRO]
            · rw [c7]
              simp [List.filter_cons, hHF]
          | some a =>
            rw [drainGo_cons_attempt_second _ _ _ _ _ hpf hc]
            have hm1 : (logEv w [Ev.apiCall (item.prompt.getD []), Ev.sleep,
                Ev.apiCall (item.prompt.getD [])]).mkdirFails = false := hm
            obtain ⟨w2, r2, hpa⟩ : ∃ w2 r2,
                process_analysis (logEv w [Ev.apiCall (item.prompt.getD []),
                  Ev.sleep, Ev.apiCall (item.prompt.getD [])])
                  (item.prompt.getD []) a today = (w2, r2) := ⟨_, _, rfl⟩
            have hsnd := process_analysis_snd
              (logEv w [Ev.apiCall (item.prompt.getD []), Ev.sleep,
                Ev.apiCall (item.prompt.getD [])])
              (item.prompt.getD []) a today hm1
            have hr2 : r2 = Except.ok (!a.skipped && hasFindings a) := by
              have h2 := congrArg Prod.snd hpa
              rw [hsnd] at h2
              exact h2.symm
            have hfst : (process_analysis (logEv w
                [Ev.apiCall (item.prompt.getD []), Ev.sleep,
                  Ev.apiCall (item.prompt.getD [])])
                (item.prompt.getD []) a today).1 = w2 := by
              rw [hpa]
            have hev2 : w2.events =
                (logEv w [Ev.apiCall (item.prompt.getD []), Ev.sleep,
                  Ev.apiCall (item.prompt.getD [])]).events
                ++ paEvents false (item.prompt.getD []) a := by
              rw [← hfst, process_analysis_fst_events, hm1]
            have hq2 : w2.queue = w.queue := by
              rw [← hfst, process_analysis_fst_queue]
              rfl
            have hm2 : w2.mkdirFails = false := by
              rw [← hfst, process_analysis_fst_mkdirFails]
              exact hm1
            rw [hpa, hr2]
            dsimp only
            obtain ⟨c1, c2, c3, c4, c5, c6, c7⟩ := ih w2 hm2
            have hAt : entryAttempted (item, (none, some a)) = true := by
              simp [entryAttempted, entryPrompt, hpf, hc]
            have hAn : entryAnalysis (item, ((none : Option Analysis),
                some a)) = some a := rfl
            have hDF : entryDoubleFailed (item, ((none : Option Analysis),
                some a)) = false := by
              simp [entryDoubleFailed, hAn]
            have hRO : entryResolvedOk (item, ((none : Option Analysis),
                some a)) = true := by
              simp [entryResolvedOk, entryPrompt, hpf, hc, hAn]
            have hHF : entryHadFindings (item, ((none : Option Analysis),
                some a)) = (!a.skipped && hasFindings a) := by
              simp [entryHadFindings, hAt, hAn]
            have hEV : entryEvents (item, ((none : Option Analysis),
                some a)) =
                [Ev.apiCall (item.prompt.getD []), Ev.sleep,
                  Ev.apiCall (item.prompt.getD [])] ++
                  paEvents false (item.prompt.getD []) a := by
              unfold entryEvents
              rw [hAt]
              simp only [Bool.not_true, Bool.false_eq_true, if_false]
              rw [hAn, paEvents_false]
              by_cases hsk : (!a.skipped && hasFindings a) = true
              · simp [entryPrompt, hsk]
              · simp only [Bool.not_eq_true] at hsk
                simp [entryPrompt, hsk]
            refine ⟨c1, ?_, ?_, by rw [c4]; exact hq2, c5, ?_, ?_⟩
            · rw [c2]
              simp [List.filter_cons, hDF]
            · rw [c3, hev2]
              simp [List.flatMap_cons, hEV, logEv, List.append_assoc]
            · rw [c6]
              simp [List.filter_cons, hRO]
            · rw [c7]
              by_cases hhad : (!a.skipped && hasFindings a) = true
              · simp [hhad, List.filter_cons, hHF]
              · simp only [Bool.not_eq_true] at hhad
                simp [hhad, List.filter_cons, hHF]
      · -- admission filter now rejects: resolved and dropped
        have hcf : should_check_grammar (item.prompt.getD []) = false := by
          simpa using hc
        rw [drainGo_cons_rejected _ _ _ _ _ _ hpf hcf]
        dsimp only
        obtain ⟨c1, c2, c3, c4, c5, c6, c7⟩ := ih w hm
        have hAt : entryAttempted (item, (o1, o2)) = false := by
          simp [entryAttempted, entryPrompt, hcf]
        refine ⟨c1, ?_, ?_, c4, c5, ?_, ?_⟩
        · rw [c2]
          have : entryDoubleFailed (item, (o1, o2)) = false := by
            simp [entryDoubleFailed, hAt]
          simp [List.filter_cons, this]
        · rw [c3]
          have : entryEvents (item, (o1, o2)) = [] := by
            simp [entryEvents, hAt]
          simp [List.flatMap_cons, this]
        · rw [c6]
          have : entryResolvedOk (item, (o1, o2)) = true := by
            simp [entryResolvedOk, entryPrompt, hpf, hcf]
          simp [List.filter_cons, this]
        · rw [c7]
          have : entryHadFindings (item, (o1, o2)) = false := by
            simp [entryHadFindings, hAt]
          simp [List.filter_cons, this]

/-- Removing an entry with a missing or empty prompt from anywhere in
the queue leaves the whole drain result unchanged. -/
lemma drainGo_erase_empty_prompt (today : Int) (item : QItem)
    (pr : Option Analysis × Option Analysis)
    (hemp : item.prompt = none ∨ item.prompt = some []) :
    ∀ (pre post : List (QItem × (Option Analysis × Option Analysis)))
      (w : World),
      drainGo w today (pre ++ (item, pr) :: post) =
        drainGo w today (pre ++ post) := by
  have hp : (item.prompt.getD []).isEmpty = true := by
    rcases hemp with h | h <;> simp [h]
  intro pre
  induction pre with
  | nil =>
    intro post w
    obtain ⟨po1, po2⟩ := pr
    simp only [List.nil_append]
    exact drainGo_cons_empty w today item po1 po2 post hp
  | cons e pre ih =>
    intro post w
    obtain ⟨eitem, eo1, eo2⟩ := e
    simp only [List.cons_append]
    by_cases hep : (eitem.prompt.getD []).isEmpty
    · rw [drainGo_cons_empty _ _ _ _ _ _ hep,
        drainGo_cons_empty _ _ _ _ _ _ hep]
      exact ih post w
    · have hepf : (eitem.prompt.getD []).isEmpty = false := by
        simpa using hep
      by_cases hec : should_check_grammar (eitem.prompt.getD [])
      · cases eo1 with
        | some a =>
          rw [drainGo_cons_attempt_first _ _ _ _ _ _ hepf hec,
            drainGo_cons_attempt_first _ _ _ _ _ _ hepf hec]
          obtain ⟨w2, r2, hpa⟩ : ∃ w2 r2,
              process_analysis (logEv w [Ev.apiCall (eitem.prompt.getD [])])
                (eitem.prompt.getD []) a today = (w2, r2) := ⟨_, _, rfl⟩
          rw [hpa]
          cases r2 with
          | error u => rfl
          | ok had =>
            dsimp only
            rw [ih]
        | none =>
          cases eo2 with
          | none =>
            rw [drainGo_cons_double_failed _ _ _ _ hepf hec,
              drainGo_cons_double_failed _ _ _ _ hepf hec]
            dsimp only
            rw [ih]
          | some a =>
            rw [drainGo_cons_attempt_second _ _ _ _ _ hepf hec,
              drainGo_cons_attempt_second _ _ _ _ _ hepf hec]
            obtain ⟨w2, r2, hpa⟩ : ∃ w2 r2,
                process_analysis (logEv w [Ev.apiCall (eitem.prompt.getD []),
                  Ev.sleep, Ev.apiCall (eitem.prompt.getD [])])
                  (eitem.prompt.getD []) a today = (w2, r2) := ⟨_, _, rfl⟩
            rw [hpa]
            cases r2 with
            | error u => rfl
            | ok had =>
              dsimp only
              rw [ih]
      · have hecf : should_check_grammar (eitem.prompt.getD []) = false := by
          simpa using hec
        rw [drainGo_cons_rejected _ _ _ _ _ _ hepf hecf,
          drainGo_cons_rejected _ _ _ _ _ _ hepf hecf]
        rw [ih]

/-- C6: with a creatable log directory, draining a nonempty retry
queue processes the entries in original order: an entry the admission
filter now rejects is dropped and counted resolved, an attempted entry
calls the analyzer once — or, after a first Failed outcome, sleeps and
calls it a second time — any non-Failed outcome resolves the entry and
routes Findings/Clean-with-rephrasing through the log-plus-record
path, and the queue persisted afterwards contains exactly the entries
that Failed on both attempts, in order; the summary counters count the
resolved-ok and resolved-with-findings entries. -/
theorem claim_C6_drain_and_retry (w : World) (today : Int)
    (items : List (QItem × (Option Analysis × Option Analysis)))
    (hmk : w.mkdirFails = false) (hne : items ≠ []) :
    (recall_main w today items).queue =
      (items.filter entryDoubleFailed).map Prod.fst ∧
    (recall_main w today items).events =
      w.events ++ items.flatMap entryEvents ∧
    (drainGo w today items).crashed = false ∧
    (drainGo w today items).successCount =
      (items.filter entryResolvedOk).length ∧
    (drainGo w today items).findingsCount =
      (items.filter entryHadFindings).length := by
  obtain ⟨c1, c2, c3, c4, c5, c6, c7⟩ := drainGo_spec today items w hmk
  have hni : items.isEmpty = false := by
    cases items with
    | nil => exact absurd rfl hne
    | cons x xs => rfl
  unfold recall_main
  rw [hni]
  refine ⟨?_, ?_, c1, c6, c7⟩ <;> simp only [Bool.false_eq_true, if_false, c1]
  · exact c2
  · exact c3

/-- A queue entry that fails both attempts. -/
def exDrainA : QItem × (Option Analysis × Option Analysis) :=
  (⟨some exNpm, none⟩, (none, none))

/-- A queue entry that succeeds with findings on the first attempt. -/
def exDrainB : QItem × (Option Analysis × Option Analysis) :=
  (⟨some exImprove, some 5⟩, (some exAnalysisErr, none))

/-- A queue for the C6 witness. -/
def exDrainItems : List (QItem × (Option Analysis × Option Analysis)) :=
  [exDrainA, exDrainB]

/-- Witness for C6 at a concrete two-entry queue. -/
theorem claim_C6_drain_and_retry_witness :
    (recall_main w0 0 exDrainItems).queue =
      (exDrainItems.filter entryDoubleFailed).map Prod.fst ∧
    (recall_main w0 0 exDrainItems).events =
      w0.events ++ exDrainItems.flatMap entryEvents ∧
    (drainGo w0 0 exDrainItems).crashed = false ∧
    (drainGo w0 0 exDrainItems).successCount =
      (exDrainItems.filter entryResolvedOk).length ∧
    (drainGo w0 0 exDrainItems).findingsCount =
      (exDrainItems.filter entryHadFindings).length :=
  claim_C6_drain_and_retry w0 0 exDrainItems rfl (by simp [exDrainItems])

/-- C10: a retry-queue entry whose `prompt` is missing or empty is
silently dropped: the whole drain result — event trace (no admission
check or analyzer call), still-failed queue, resolved-ok count and
findings count — is the same as if the entry were not in the queue;
every persisted entry has a nonempty prompt; and the rewritten queue
file of a run on a queue containing such an entry equals that of the
run without it. -/
theorem claim_C10_empty_prompt_entries_dropped :
    (∀ (w : World) (today : Int)
        (pre post : List (QItem × (Option Analysis × Option Analysis)))
        (item : QItem) (pr : Option Analysis × Option Analysis),
        (item.prompt = none ∨ item.prompt = some []) →
        drainGo w today (pre ++ (item, pr) :: post) =
          drainGo w today (pre ++ post)) ∧
    (∀ (w : World) (today : Int)
        (items : List (QItem × (Option Analysis × Option Analysis)))
        (q : QItem), w.mkdirFails = false →
        q ∈ (drainGo w today items).stillFailed → q.prompt.getD [] ≠ []) ∧
    (∀ (w : World) (today : Int)
        (pre post : List (QItem × (Option Analysis × Option Analysis)))
        (item : QItem) (pr : Option Analysis × Option Analysis),
        (item.prompt = none ∨ item.prompt = some []) → pre ++ post ≠ [] →
        recall_main w today (pre ++ (item, pr) :: post) =
          recall_main w today (pre ++ post)) := by
  refine ⟨?_, ?_, ?_⟩
  · intro w today pre post item pr hemp
    exact drainGo_erase_empty_prompt today item pr hemp pre post w
  · intro w today items q hmk hq
    obtain ⟨-, c2, -⟩ := drainGo_spec today items w hmk
    rw [c2] at hq
    obtain ⟨e, he, rfl⟩ := List.mem_map.1 hq
    have hdf := (List.mem_filter.1 he).2
    have hat : entryAttempted e = true := by
      unfold entryDoubleFailed at hdf
      rw [Bool.and_eq_true] at hdf
      exact hdf.1
    unfold entryAttempted entryPrompt at hat
    intro hnil
    rw [hnil] at hat
    simp at hat
  · intro w today pre post item pr hemp hne
    unfold recall_main
    have h1 : (pre ++ (item, pr) :: post).isEmpty = false := by
      cases pre <;> rfl
    have h2 : (pre ++ post).isEmpty = false := by
      cases hpp : pre ++ post with
      | nil => exact absurd hpp hne
      | cons x xs => rfl
    rw [h1, h2, drainGo_erase_empty_prompt today item pr hemp pre post w]

/-- Witness for C10: dropping a prompt-less entry between two real
entries changes nothing, and a concrete drained queue has only
nonempty-prompt entries. -/
theorem claim_C10_empty_prompt_entries_dropped_witness :
    drainGo w0 0 ([exDrainA] ++
        (⟨none, none⟩, ((none : Option Analysis), (none : Option Analysis))) ::
        [exDrainB]) =
      drainGo w0 0 ([exDrainA] ++ [exDrainB]) ∧
    recall_main w0 0 ([exDrainA] ++
        (⟨some [], some 3⟩, ((none : Option Analysis),
          (none : Option Analysis))) :: [exDrainB]) =
      recall_main w0 0 ([exDrainA] ++ [exDrainB]) ∧
    (⟨some exNpm, none⟩ : QItem).prompt.getD [] ≠ [] := by
  refine ⟨?_, ?_, ?_⟩
  · exact claim_C10_empty_prompt_entries_dropped.1 w0 0 [exDrainA]
      [exDrainB] ⟨none, none⟩ (none, none) (Or.inl rfl)
  · exact claim_C10_empty_prompt_entries_dropped.2.2 w0 0 [exDrainA]
      [exDrainB] ⟨some [], some 3⟩ (none, none) (Or.inr rfl)
      (by simp)
  · have := claim_C10_empty_prompt_entries_dropped.2.1 w0 0 exDrainItems
      ⟨some exNpm, none⟩ rfl
    apply this
    rw [(drainGo_spec 0 exDrainItems w0 rfl).2.1]
    decide

lemma logBeforeStore_check_grammar_main (w : World) (prompt : Text)
    (oa : Option Analysis) (today : Int) (h : logBeforeStore w.events) :
    logBeforeStore (check_grammar_main w prompt oa today).events := by
  unfold check_grammar_main
  by_cases hadm : should_check_grammar prompt
  · simp only [hadm, Bool.not_true, Bool.false_eq_true, if_false]
    have hw1 : logBeforeStore (logEv w [Ev.apiCall prompt]).events :=
      logBeforeStore_append _ _ h (logBeforeStore_of_no_db _ (by simp))
    cases oa with
    | none => exact hw1
    | some a =>
      by_cases hs : a.skipped
      · simp only [hs, if_true]
        exact hw1
      · simp only [hs, Bool.false_eq_true, if_false]
        have heq : recordBlock (logEv w [Ev.apiCall prompt]) prompt a today =
            process_analysis (logEv w [Ev.apiCall prompt]) prompt a today := by
          unfold process_analysis
          simp [hs]
        rw [heq]
        exact logBeforeStore_process_analysis _ _ _ _ hw1
  · simp only [hadm, Bool.not_false, if_true]
    exact h

lemma logBeforeStore_recall_main (w : World) (today : Int)
    (items : List (QItem × (Option Analysis × Option Analysis)))
    (h : logBeforeStore w.events) :
    logBeforeStore (recall_main w today items).events := by
  unfold recall_main
  by_cases he : items.isEmpty
  · simp only [he, if_true]
    exact h
  · simp only [he, Bool.false_eq_true, if_false]
    have hd := logBeforeStore_drainGo today items w h
    by_cases hc : (drainGo w today items).crashed
    · simp only [hc, if_true]
      exact hd
    · simp only [hc, Bool.false_eq_true, if_false]
      exact hd

/-- On a recorded primary-pipeline run the trace is exactly analyzer
call, Obsidian append, database write. -/
lemma check_grammar_main_recorded_events (w : World) (prompt : Text)
    (a : Analysis) (today : Int)
    (hadm : should_check_grammar prompt = true) (hs : a.skipped = false)
    (hf : hasFindings a = true) (hm : w.mkdirFails = false) :
    (check_grammar_main w prompt (some a) today).events =
      w.events ++ [Ev.apiCall prompt, Ev.obsCall prompt, Ev.dbWrite prompt] := by
  unfold check_grammar_main
  simp only [hadm, Bool.not_true, Bool.false_eq_true, if_false, hs, if_false]
  have heq : recordBlock (logEv w [Ev.apiCall prompt]) prompt a today =
      process_analysis (logEv w [Ev.apiCall prompt]) prompt a today := by
    unfold process_analysis
    simp [hs]
  rw [heq, process_analysis_fst_events]
  have hm1 : (logEv w [Ev.apiCall prompt]).mkdirFails = false := hm
  rw [hm1, paEvents_false]
  simp [logEv, hs, hf]

/-- C2 (amended): on every recorded run — in the primary pipeline and
in the retry drain — the Log Writer's append is invoked first and the
Persistence Layer's record second: whenever a database write appears
in the event trace, an Obsidian append for the same prompt precedes
it, and a recorded primary-pipeline run's trace is exactly analyzer
call, log append, store write, in that order. -/
theorem claim_C2_log_append_precedes_record :
    (∀ (w : World) (prompt : Text) (a : Analysis) (today : Int),
        should_check_grammar prompt = true → a.skipped = false →
        hasFindings a = true → w.mkdirFails = false →
        (check_grammar_main w prompt (some a) today).events =
          w.events ++ [Ev.apiCall prompt, Ev.obsCall prompt,
            Ev.dbWrite prompt]) ∧
    (∀ (w : World) (prompt : Text) (oa : Option Analysis) (today : Int),
        logBeforeStore w.events →
        logBeforeStore (check_grammar_main w prompt oa today).events) ∧
    (∀ (w : World) (today : Int)
        (items : List (QItem × (Option Analysis × Option Analysis))),
        logBeforeStore w.events →
        logBeforeStore (recall_main w today items).events) :=
  ⟨check_grammar_main_recorded_events, logBeforeStore_check_grammar_main,
    logBeforeStore_recall_main⟩

/-- Witness for the amended C2 at concrete worlds and inputs. -/
theorem claim_C2_log_append_precedes_record_witness :
    (check_grammar_main w0 exImprove (some exAnalysisErr) 0).events =
      w0.events ++ [Ev.apiCall exImprove, Ev.obsCall exImprove,
        Ev.dbWrite exImprove] ∧
    logBeforeStore (check_grammar_main w0 exImprove (some exAnalysisErr)
      0).events ∧
    logBeforeStore (recall_main w0 0 exDrainItems).events := by
  have h0 : logBeforeStore w0.events := by
    intro i p hi
    simp [w0, List.get?] at hi
  refine ⟨?_, ?_, ?_⟩
  · exact claim_C2_log_append_precedes_record.1 w0 exImprove exAnalysisErr 0
      (by decide) rfl rfl rfl
  · exact claim_C2_log_append_precedes_record.2.1 w0 exImprove
      (some exAnalysisErr) 0 h0
  · exact claim_C2_log_append_precedes_record.2.2 w0 0 exDrainItems h0

end EnglishBuddy
